import Mathlib

/-!
Verification development for the gridwar server core (`src/server.js`).

The JavaScript server is shallowly embedded in Lean: every `def` below is a
direct translation of the corresponding function in `src/server.js` (the
richest variant, which is authoritative; `src/unnamed/part_000` is an earlier
variant of the same file).  JS objects become structures, the insertion-ordered
`room.players` object becomes an association list, socket-event emissions are
elided (they do not affect room state), `Date.now()` becomes an explicit `now`
parameter, the global `nextProjectileId` counter is threaded explicitly, and
the random spawn selector becomes an explicit spawn-function parameter.
JS numbers are modelled as `Int`; `Math.floor(e / 1000)` is `e / 1000` on
`Int` (Euclidean division, which agrees with `Math.floor` for the positive
divisor 1000).
-/

/-- Grid width, `GRID_W = 40` in `server.js`. -/
def GRID_W : Int := 40

/-- Grid height, `GRID_H = 18` in `server.js`. -/
def GRID_H : Int := 18

/-- Reload interval in ms, `BULLET_RELOAD_MS = 1000`. -/
def BULLET_RELOAD_MS : Int := 1000

/-- Ammunition cap, `MAX_BULLETS = 3`. -/
def MAX_BULLETS : Int := 3

/-- Solid wall coordinates, the `WALLS` constant of `server.js`. -/
def WALLS : List (Int × Int) :=
  [(19, 8), (20, 8),
   (19, 9), (20, 9),
   (10, 4), (11, 4), (12, 4),
   (27, 13), (28, 13), (29, 13)]

/-- Reflective wall coordinates, the `REFLECT_WALLS` constant. -/
def REFLECT_WALLS : List (Int × Int) :=
  [(5, 5), (34, 5), (5, 12), (34, 12)]

/-- Spike coordinates, the `SPIKES` constant. -/
def SPIKES : List (Int × Int) :=
  [(8, 7), (31, 10), (16, 12)]

/-- Cactus layout, the `CACTI_LAYOUT` constant (copied per room with `used`). -/
def CACTI_LAYOUT : List (Int × Int) :=
  [(14, 6), (25, 6), (20, 3)]

/-- Translation of `isWall(x, y)` from `server.js`. -/
def isWall (x y : Int) : Bool :=
  WALLS.any (fun w => w.1 = x ∧ w.2 = y)

/-- Translation of `isReflectWall(x, y)` from `server.js`. -/
def isReflectWall (x y : Int) : Bool :=
  REFLECT_WALLS.any (fun w => w.1 = x ∧ w.2 = y)

/-- Translation of `isSpike(x, y)` from `server.js`. -/
def isSpike (x y : Int) : Bool :=
  SPIKES.any (fun s => s.1 = x ∧ s.2 = y)

/-- Player facing, one of the four cardinal directions. -/
inductive Facing where
  | up
  | down
  | left
  | right
deriving DecidableEq, Repr

/-- Room round state, `'waiting' | 'countdown' | 'playing' | 'round_over'`. -/
inductive RState where
  | waiting
  | countdown
  | playing
  | round_over
deriving DecidableEq, Repr

/-- One cactus trap instance: a per-room copy of a layout cell with a `used` flag. -/
structure Cactus where
  x : Int
  y : Int
  used : Bool
deriving DecidableEq, Repr

/-- A player record, as stored in `room.players[socketId]`. -/
structure Player where
  x : Int
  y : Int
  color : String
  name : String
  hp : Int
  facing : Facing
  score : Int
  bulletsLoaded : Int
  lastReloadTime : Int
deriving DecidableEq, Repr

/-- An in-flight projectile `{ id, x, y, dx, dy, shooterId }`. -/
structure Proj where
  id : Nat
  x : Int
  y : Int
  dx : Int
  dy : Int
  shooterId : String
deriving DecidableEq, Repr

/-- A room.  `players` is the insertion-ordered association list modelling the
JS object `room.players` (JS string-keyed objects enumerate in insertion
order); the two timer fields hold the pending delay of the scheduled callback,
`none` when no callback is pending. -/
structure Room where
  players : List (String × Player)
  projectiles : List Proj
  cacti : List Cactus
  state : RState
  hostId : Option String
  countdownTimeout : Option Int
  restartTimeout : Option Int
deriving DecidableEq, Repr

/-- Association-list lookup for `room.players[socketId]`. -/
def lookupP : List (String × Player) → String → Option Player
  | [], _ => none
  | e :: rest, k => if e.1 = k then some e.2 else lookupP rest k

/-- In-place update of `room.players[sock]` (JS mutates the looked-up record). -/
def setPlayer (room : Room) (sock : String) (p : Player) : Room :=
  { room with players := room.players.map (fun e => if e.1 = sock then (e.1, p) else e) }

/-- Translation of `getCactusAt(room, x, y)` from `server.js`: the first cactus at the cell, or none. -/
def getCactusAt (cacti : List Cactus) (x y : Int) : Option Cactus :=
  cacti.find? (fun c => c.x = x ∧ c.y = y)

/-- Mutation `cactus.used = true` applied to the record `getCactusAt` found:
updates the first cactus at the cell. -/
def markUsed : List Cactus → Int → Int → List Cactus
  | [], _, _ => []
  | c :: rest, x, y =>
      if c.x = x ∧ c.y = y then { c with used := true } :: rest
      else c :: markUsed rest x y

/-- Translation of `facingFromDelta(dx, dy, currentFacing)` from `server.js`. -/
def facingFromDelta (dx dy : Int) (currentFacing : Facing) : Facing :=
  if dx = 1 ∧ dy = 0 then .right
  else if dx = -1 ∧ dy = 0 then .left
  else if dx = 0 ∧ dy = -1 then .up
  else if dx = 0 ∧ dy = 1 then .down
  else currentFacing

/-- Translation of `facingToDelta(facing)` from `server.js`. -/
def facingToDelta : Facing → Int × Int
  | .up => (0, -1)
  | .down => (0, 1)
  | .left => (-1, 0)
  | .right => (1, 0)

/-- Translation of `reloadBullets(player)` from `server.js`, with `Date.now()` passed in as
`now`.  The `bulletsLoaded === undefined` initialization branch of the JS is
unreachable for players of this model (every player is created by the join
handler or respawned by `startRound`, both of which set `bulletsLoaded`), so it
is not modelled; the falsy-anchor branch `if (!player.lastReloadTime)` is the
`lastReloadTime = 0` test.  Returns the updated player and the changed flag. -/
def reloadBullets (now : Int) (p : Player) : Player × Bool :=
  if MAX_BULLETS ≤ p.bulletsLoaded then
    ({ p with lastReloadTime := now }, false)
  else
    let p := if p.lastReloadTime = 0 then { p with lastReloadTime := now } else p
    let elapsed := now - p.lastReloadTime
    if elapsed < BULLET_RELOAD_MS then (p, false)
    else
      let toAdd := elapsed / BULLET_RELOAD_MS
      if toAdd ≤ 0 then (p, false)
      else
        let old := p.bulletsLoaded
        let newB := min MAX_BULLETS (p.bulletsLoaded + toAdd)
        let used := newB - old
        ({ p with bulletsLoaded := newB, lastReloadTime := p.lastReloadTime + used * BULLET_RELOAD_MS },
         decide (newB ≠ old))

/-- The alive players of a room (`hp > 0`), in entry order. -/
def aliveList (room : Room) : List (String × Player) :=
  room.players.filter (fun e => 0 < e.2.hp)

/-- Number of alive players. -/
def aliveCount (room : Room) : Nat :=
  (aliveList room).length

/-- Translation of `handleRoundEndIfNeeded(roomId)` from `server.js`: while playing, if at
most one player is alive, transition to `round_over`, cancel timers, clear
projectiles, and credit the single survivor (if any) one point. -/
def handleRoundEndIfNeeded (room : Room) : Room :=
  if room.state ≠ .playing then room
  else
    let alive := room.players.filter (fun e => 0 < e.2.hp)
    if 1 < alive.length then room
    else
      let room1 : Room :=
        { room with
            state := .round_over
            countdownTimeout := none
            restartTimeout := none
            projectiles := [] }
      match alive with
      | [(wid, _)] =>
          { room1 with
              players := room1.players.map (fun e =>
                if e.1 = wid then (e.1, { e.2 with score := e.2.score + 1 }) else e) }
      | _ => room1

/-- Score of a player by id, `none` when not a member. -/
def scoreOf (room : Room) (pid : String) : Option Int :=
  (lookupP room.players pid).map Player.score

/-- Ammunition of a player by id, `none` when not a member. -/
def bulletsOf (room : Room) (pid : String) : Option Int :=
  (lookupP room.players pid).map Player.bulletsLoaded

/-- The ammunition invariant of the spec: an integer in `0..3`. -/
def ammoOK (p : Player) : Prop :=
  0 ≤ p.bulletsLoaded ∧ p.bulletsLoaded ≤ MAX_BULLETS

instance (p : Player) : Decidable (ammoOK p) := by
  unfold ammoOK; infer_instance

/-! ## Projectile collision marking (tick phases 1 and 2)

`tickProjectilesAndReload` first builds `segMap` (projectiles grouped by the
unit grid segment they traverse this tick) and marks index-paired
opposite-direction movers, then builds `tileMap` (unmarked projectiles grouped
by tentative destination cell) and marks index-paired left/right and up/down
movers.  The JS accumulates the marks in a `Set` of ids; here the marks are a
list of ids used only through membership, which is the same abstraction. -/

/-- The key of `segMap`: `h:${min(x,nx)},${y}` or `v:${x},${min(y,ny)}`. -/
inductive SegKey where
  | h (x y : Int)
  | v (x y : Int)
deriving DecidableEq, Repr

/-- Segment key of a projectile for this tick, `none` for a motionless one
(the JS `if (p.dx === 0 && p.dy === 0) continue;`). -/
def segKeyOf (p : Proj) : Option SegKey :=
  if p.dx = 0 ∧ p.dy = 0 then none
  else if p.dx ≠ 0 then some (SegKey.h (min p.x (p.x + p.dx)) p.y)
  else some (SegKey.v p.x (min p.y (p.y + p.dy)))

/-- Membership test of the positive-direction subset of a segment group
(`p.dx > 0` for horizontal keys, `p.dy > 0` for vertical ones). -/
def isPosDir (k : SegKey) (p : Proj) : Bool :=
  match k with
  | .h _ _ => decide (0 < p.dx)
  | .v _ _ => decide (0 < p.dy)

/-- Membership test of the negative-direction subset of a segment group. -/
def isNegDir (k : SegKey) (p : Proj) : Bool :=
  match k with
  | .h _ _ => decide (p.dx < 0)
  | .v _ _ => decide (p.dy < 0)

/-- Ids marked by pairing two directional subsets: the first
`min(|a|,|b|)` elements of each side (the JS loop `for i < pairs:
toRemove.add(a[i].id); toRemove.add(b[i].id)`). -/
def pairIds (a b : List Proj) : List Nat :=
  let n := min a.length b.length
  (a.take n).map Proj.id ++ (b.take n).map Proj.id

/-- Marks contributed by one `segMap` group (the phase-1 loop body,
including the `list.length < 2` skip). -/
def segMark (k : SegKey) (l : List Proj) : List Nat :=
  if l.length < 2 then []
  else pairIds (l.filter (isPosDir k)) (l.filter (isNegDir k))

/-- The destination-cell key of `tileMap`: `${nx},${ny}`. -/
def tileKeyOf (p : Proj) : Int × Int :=
  (p.x + p.dx, p.y + p.dy)

/-- The four direction classes of the phase-2 else-if chain. -/
inductive Arrow where
  | left
  | right
  | up
  | down
deriving DecidableEq, Repr

/-- Direction class of a projectile per the phase-2 chain
`if dx === -1 … else if dx === 1 … else if dy === -1 … else if dy === 1`. -/
def dirTag (p : Proj) : Option Arrow :=
  if p.dx = -1 then some .left
  else if p.dx = 1 then some .right
  else if p.dy = -1 then some .up
  else if p.dy = 1 then some .down
  else none

/-- Marks contributed by one `tileMap` group: `pairCancel(left, right)`
then `pairCancel(up, down)` (including the `g.length < 2` skip). -/
def tileMark (l : List Proj) : List Nat :=
  if l.length < 2 then []
  else
    pairIds (l.filter (fun p => dirTag p = some .left))
            (l.filter (fun p => dirTag p = some .right))
      ++ pairIds (l.filter (fun p => dirTag p = some .up))
                 (l.filter (fun p => dirTag p = some .down))

/-- Append `p` to the group of key `k`, or start a new group at the end —
what `(map[key] ||= []).push(p)` does to an insertion-ordered JS object. -/
def insertGroup {κ : Type} [DecidableEq κ] : List (κ × List Proj) → κ → Proj → List (κ × List Proj)
  | [], k, p => [(k, [p])]
  | e :: rest, k, p =>
      if e.1 = k then (e.1, e.2 ++ [p]) :: rest
      else e :: insertGroup rest k p

/-- One step of the grouping loop: route `p` to its group, if any. -/
def groupStep {κ : Type} [DecidableEq κ] (key : Proj → Option κ)
    (m : List (κ × List Proj)) (p : Proj) : List (κ × List Proj) :=
  match key p with
  | none => m
  | some k => insertGroup m k p

/-- Build a grouping map in insertion order, skipping keyless elements. -/
def groupProjs {κ : Type} [DecidableEq κ] (key : Proj → Option κ) (ps : List Proj) :
    List (κ × List Proj) :=
  ps.foldl (groupStep key) []

/-- Ids marked by phase 1 (crossing-pair cancellation) of the tick. -/
def phase1Ids (ps : List Proj) : List Nat :=
  (groupProjs segKeyOf ps).foldl (fun acc e => acc ++ segMark e.1 e.2) []

/-- Ids marked by phase 2 (same-destination cancellation) on its input list. -/
def phase2Ids (ps : List Proj) : List Nat :=
  (groupProjs (fun p => some (tileKeyOf p)) ps).foldl (fun acc e => acc ++ tileMark e.2) []

/-- The projectiles phase 2 groups: those not marked by phase 1
(the JS `if (toRemove.has(p.id)) continue;` while building `tileMap`). -/
def phase2Input (ps : List Proj) : List Proj :=
  ps.filter (fun p => ¬ p.id ∈ phase1Ids ps)

/-- The complete `toRemove` set of a tick, as a list of ids. -/
def toRemoveIds (ps : List Proj) : List Nat :=
  phase1Ids ps ++ phase2Ids (phase2Input ps)

/-! ## The per-projectile resolution loop and the tick -/

/-- The four spawn directions of a triggered cactus, in source order. -/
def cactusDirs : List (Int × Int) :=
  [(1, 0), (-1, 0), (0, 1), (0, -1)]

/-- Whether a cactus burst may spawn toward `d` from trap cell `(nx, ny)`:
the adjacent cell is in bounds and holds no wall, reflect wall, or cactus. -/
def canSpawn (cacti : List Cactus) (nx ny : Int) (d : Int × Int) : Bool :=
  let sx := nx + d.1
  let sy := ny + d.2
  ¬ (sx < 0 ∨ GRID_W ≤ sx ∨ sy < 0 ∨ GRID_H ≤ sy
     ∨ (isWall sx sy ∨ isReflectWall sx sy ∨ (getCactusAt cacti sx sy).isSome))

/-- The `dirs.forEach` spawn loop of the cactus branch: one projectile per
legal direction, consuming one fresh id (`nextProjectileId++`) per spawn. -/
def spawnLoop (cacti : List Cactus) (nx ny : Int) (sh : String) :
    List (Int × Int) → Nat → List Proj × Nat
  | [], nid => ([], nid)
  | d :: ds, nid =>
      if canSpawn cacti nx ny d then
        let rest := spawnLoop cacti nx ny sh ds (nid + 1)
        (⟨nid, nx + d.1, ny + d.2, d.1, d.2, sh⟩ :: rest.1, rest.2)
      else spawnLoop cacti nx ny sh ds nid

/-- All projectiles spawned by triggering the cactus at `(nx, ny)`. -/
def cactusSpawns (cacti : List Cactus) (nx ny : Int) (sh : String) (nid : Nat) :
    List Proj × Nat :=
  spawnLoop cacti nx ny sh cactusDirs nid

/-- First alive player occupying a cell, in entry order (the hit-scan loops
of the tick and of the shoot handler). -/
def firstAliveAt (players : List (String × Player)) (x y : Int) : Option String :=
  (players.find? (fun e => 0 < e.2.hp ∧ e.2.x = x ∧ e.2.y = y)).map Prod.fst

/-- Decrement a player's health by one, floored at zero. -/
def damagePlayer (room : Room) (pid : String) : Room :=
  { room with
      players := room.players.map (fun e =>
        if e.1 = pid then (e.1, { e.2 with hp := max 0 (e.2.hp - 1) }) else e) }

/-- State carried through the per-projectile loop of the tick: the mutable
room, the (fixed) mark set, the `remaining` and `spawned` accumulators, and
the global projectile-id counter. -/
structure TickSt where
  room : Room
  toRem : List Nat
  remaining : List Proj
  spawned : List Proj
  nextId : Nat
deriving Repr

/-- One iteration of the `for (const p of extended)` loop of
`tickProjectilesAndReload`: marked → drop; out of bounds → drop; reflect wall
→ bounce in place; wall → drop; cactus → trigger (spawning a burst) or act as
wall; alive player at destination → damage and round-end check; else advance. -/
def stepProj (st : TickSt) (p : Proj) : TickSt :=
  if p.id ∈ st.toRem then st
  else
    let nx := p.x + p.dx
    let ny := p.y + p.dy
    if nx < 0 ∨ GRID_W ≤ nx ∨ ny < 0 ∨ GRID_H ≤ ny then st
    else if isReflectWall nx ny then
      { st with remaining := st.remaining ++ [{ p with dx := -p.dx, dy := -p.dy }] }
    else if isWall nx ny then st
    else
      match getCactusAt st.room.cacti nx ny with
      | some c =>
          if c.used then st
          else
            let cacti1 := markUsed st.room.cacti nx ny
            let sp := cactusSpawns cacti1 nx ny p.shooterId st.nextId
            { st with
                room := { st.room with cacti := cacti1 }
                spawned := st.spawned ++ sp.1
                nextId := sp.2 }
      | none =>
          match firstAliveAt st.room.players nx ny with
          | some tid =>
              { st with room := handleRoundEndIfNeeded (damagePlayer st.room tid) }
          | none =>
              { st with remaining := st.remaining ++ [{ p with x := nx, y := ny }] }

/-- The reload pass at the top of the tick: every player reloads while the
room is playing or in countdown (ammo events elided). -/
def reloadPhase (now : Int) (room : Room) : Room :=
  if room.state = .playing ∨ room.state = .countdown then
    { room with players := room.players.map (fun e => (e.1, (reloadBullets now e.2).1)) }
  else room

/-- One invocation of `tickProjectilesAndReload` on one room: reload, then —
only while playing with live projectiles — mark collisions, run the
per-projectile loop, and finally assign
`room.projectiles = remaining.concat(spawned)` (this final assignment is
unconditional in the source, even when a round-end fired mid-loop). -/
def tickRoom (now : Int) (room0 : Room) (nid : Nat) : Room × Nat :=
  let room := reloadPhase now room0
  if room.state = .playing ∧ room.projectiles ≠ [] then
    let ps := room.projectiles
    let st := ps.foldl stepProj ⟨room, toRemoveIds ps, [], [], nid⟩
    ({ st.room with projectiles := st.remaining ++ st.spawned }, st.nextId)
  else (room, nid)

/-! ## Intent handlers -/

/-- Translation of `isBlocked(roomId, x, y, ignoreId)` from `server.js`: out of bounds, wall,
reflect wall, cactus, or a living player other than `ignoreId`. -/
def isBlocked (room : Room) (x y : Int) (ignoreId : Option String) : Bool :=
  x < 0 ∨ GRID_W ≤ x ∨ y < 0 ∨ GRID_H ≤ y
    ∨ isWall x y ∨ isReflectWall x y
    ∨ (getCactusAt room.cacti x y).isSome
    ∨ room.players.any (fun e => ¬ some e.1 = ignoreId ∧ 0 < e.2.hp ∧ e.2.x = x ∧ e.2.y = y)

/-- The `move` socket handler.  The JS maps the direction string to a delta
with an if-chain identical to `facingToDelta` (unknown strings are a no-op and
are unrepresentable in the `Facing` embedding).  Facing always updates, even
when the move is blocked; stepping onto a spike costs one health and triggers
the synchronous round-end check. -/
def moveHandler (room : Room) (sock : String) (dir : Facing) : Room :=
  if room.state ≠ .playing then room
  else
    match lookupP room.players sock with
    | none => room
    | some pl =>
        if pl.hp ≤ 0 then room
        else
          let d := facingToDelta dir
          let newFacing := facingFromDelta d.1 d.2 pl.facing
          let toX := pl.x + d.1
          let toY := pl.y + d.2
          let pl1 := { pl with facing := newFacing }
          let room1 := setPlayer room sock pl1
          if isBlocked room1 toX toY (some sock) then room1
          else
            let pl2 := { pl1 with x := toX, y := toY }
            let room2 := setPlayer room1 sock pl2
            if isSpike toX toY ∧ 0 < pl2.hp then
              let pl3 := { pl2 with hp := max 0 (pl2.hp - 1) }
              handleRoundEndIfNeeded (setPlayer room2 sock pl3)
            else room2

/-- The `shoot` socket handler.  Reloads opportunistically, rejects without
ammunition (ammo event elided), decrements ammunition, and either rejects a
blocked muzzle cell, lands a point-blank hit (consuming a projectile id but
persisting no projectile), or spawns a moving projectile.  Returns the updated
room and the `nextProjectileId` counter. -/
def shootHandler (room : Room) (sock : String) (now : Int) (nid : Nat) : Room × Nat :=
  if room.state ≠ .playing then (room, nid)
  else
    match lookupP room.players sock with
    | none => (room, nid)
    | some sh =>
        if sh.hp ≤ 0 then (room, nid)
        else
          let sh1 := (reloadBullets now sh).1
          let room1 := setPlayer room sock sh1
          if sh1.bulletsLoaded ≤ 0 then (room1, nid)
          else
            let sh2 := { sh1 with bulletsLoaded := max 0 (sh1.bulletsLoaded - 1) }
            let room2 := setPlayer room1 sock sh2
            let d := facingToDelta sh2.facing
            if d.1 = 0 ∧ d.2 = 0 then (room2, nid)
            else
              let sx := sh2.x + d.1
              let sy := sh2.y + d.2
              if sx < 0 ∨ GRID_W ≤ sx ∨ sy < 0 ∨ GRID_H ≤ sy
                  ∨ isWall sx sy ∨ isReflectWall sx sy
                  ∨ (getCactusAt room2.cacti sx sy).isSome then
                (room2, nid)
              else
                match firstAliveAt room2.players sx sy with
                | some tid =>
                    (handleRoundEndIfNeeded (damagePlayer room2 tid), nid + 1)
                | none =>
                    ({ room2 with
                        projectiles := room2.projectiles ++ [⟨nid, sx, sy, d.1, d.2, sock⟩] },
                     nid + 1)

/-- The `disconnect` socket handler, restricted to the player's room: remove
the player, reassign the host to the first remaining member if the host left,
cancel timers, clear projectiles, then destroy the empty room (`none`) or
force `waiting` unless already waiting or round_over. -/
def disconnectHandler (room : Room) (sock : String) : Option Room :=
  let players1 := room.players.filter (fun e => ¬ e.1 = sock)
  let host1 :=
    if room.hostId = some sock then (players1.map Prod.fst).head?
    else room.hostId
  let room1 : Room :=
    { room with
        players := players1
        hostId := host1
        countdownTimeout := none
        restartTimeout := none
        projectiles := [] }
  if room1.players.length = 0 then none
  else if room1.state ≠ .waiting ∧ room1.state ≠ .round_over then
    some { room1 with state := .waiting }
  else some room1

/-- An event emitted by `startRound` (`roundState` with optional countdown). -/
inductive REvent where
  | roundState (s : RState) (countdown : Option Int)
deriving DecidableEq, Repr

/-- Translation of `startRound(roomId)` from `server.js`; `getRandomSpawn` is randomized, so
the spawn selector is abstracted as `spawnF`, giving the cell of the `i`-th
player (the JS assigns spawns sequentially in player enumeration order).
Timers are cancelled and projectiles cleared first; with fewer than two
players the room falls to `waiting`; otherwise every cactus is re-armed, every
player is respawned with full health and ammunition facing down, the state
becomes `countdown`, and a 3000 ms countdown callback is scheduled and
announced. -/
def startRound (room : Room) (now : Int) (spawnF : Nat → Int × Int) : Room × List REvent :=
  let room1 : Room :=
    { room with countdownTimeout := none, restartTimeout := none, projectiles := [] }
  if room1.players.length < 2 then
    ({ room1 with state := .waiting }, [.roundState .waiting none])
  else
    let cacti1 := room1.cacti.map (fun c => { c with used := false })
    let players1 := room1.players.enum.map (fun ip =>
      (ip.2.1,
       { ip.2.2 with
           x := (spawnF ip.1).1
           y := (spawnF ip.1).2
           hp := 5
           facing := Facing.down
           bulletsLoaded := MAX_BULLETS
           lastReloadTime := now }))
    ({ room1 with
        players := players1
        cacti := cacti1
        state := .countdown
        countdownTimeout := some 3000 },
     [.roundState .countdown (some 3000)])

/-- The player record built by the `joinRoom` handler (spawn cell, color and
name abstracted as parameters; the spawn and color selectors are randomized). -/
def newPlayer (pos : Int × Int) (color name : String) (now : Int) : Player :=
  { x := pos.1
    y := pos.2
    color := color
    name := name
    hp := 5
    facing := Facing.down
    score := 0
    bulletsLoaded := MAX_BULLETS
    lastReloadTime := now }

/-- Keys of the room's player map are distinct (JS object keys are unique). -/
def keysNodup (room : Room) : Prop :=
  (room.players.map Prod.fst).Nodup

/-- Invariant carried through the per-projectile loop: the room is playing or
round_over, and while playing more than one player is alive. -/
def tickInv (st : TickSt) : Prop :=
  (st.room.state = .playing ∨ st.room.state = .round_over)
  ∧ (st.room.state = .playing → 1 < aliveCount st.room)

/-- Concrete playing room for the C4 witness: "A" has 1 hp and a projectile
one cell to its left is about to hit it. -/
def wRoomC4 : Room :=
  { players :=
      [("A", { x := 10, y := 10, color := "c1", name := "A", hp := 1, facing := .down,
               score := 0, bulletsLoaded := 3, lastReloadTime := 0 }),
       ("B", { x := 30, y := 10, color := "c2", name := "B", hp := 5, facing := .down,
               score := 0, bulletsLoaded := 3, lastReloadTime := 0 })]
    projectiles := [⟨1, 9, 10, 1, 0, "B"⟩]
    cacti := CACTI_LAYOUT.map (fun c => { x := c.1, y := c.2, used := false })
    state := .playing
    hostId := some "A"
    countdownTimeout := none
    restartTimeout := none }

/-- Concrete playing room for the C5 failing input: projectile 1 kills "A"
(whose hp is 1) this tick, and projectile 2 flies over open ground at (2,2)
and is processed after the round has already ended. -/
def bugRoomC5 : Room :=
  { players :=
      [("A", { x := 10, y := 10, color := "c1", name := "A", hp := 1, facing := .down,
               score := 0, bulletsLoaded := 3, lastReloadTime := 0 }),
       ("B", { x := 30, y := 10, color := "c2", name := "B", hp := 5, facing := .down,
               score := 2, bulletsLoaded := 3, lastReloadTime := 0 })]
    projectiles := [⟨1, 9, 10, 1, 0, "B"⟩, ⟨2, 2, 2, 1, 0, "B"⟩]
    cacti := CACTI_LAYOUT.map (fun c => { x := c.1, y := c.2, used := false })
    state := .playing
    hostId := some "A"
    countdownTimeout := none
    restartTimeout := none }

/-- Concrete room for the C3 witness: one unmarked projectile about to step
onto the reflect wall at (5,5). -/
def wRoomC3 : Room :=
  { players :=
      [("A", { x := 20, y := 15, color := "c1", name := "A", hp := 5, facing := .down,
               score := 0, bulletsLoaded := 3, lastReloadTime := 0 }),
       ("B", { x := 30, y := 10, color := "c2", name := "B", hp := 5, facing := .down,
               score := 0, bulletsLoaded := 3, lastReloadTime := 0 })]
    projectiles := [⟨1, 4, 5, 1, 0, "A"⟩]
    cacti := CACTI_LAYOUT.map (fun c => { x := c.1, y := c.2, used := false })
    state := .playing
    hostId := some "A"
    countdownTimeout := none
    restartTimeout := none }

/-- Concrete room refuting C3 as frozen: two projectiles converge on the
reflect wall at (5,5) from opposite sides. -/
def cRoomC3 : Room :=
  { wRoomC3 with projectiles := [⟨1, 4, 5, 1, 0, "A"⟩, ⟨2, 6, 5, -1, 0, "B"⟩] }

/-- Concrete loop state for the C2 witness: a projectile one cell left of the
unused cactus at (14,6). -/
def wStC2 : TickSt :=
  { room :=
      { players :=
          [("A", { x := 2, y := 2, color := "c1", name := "A", hp := 5, facing := .down,
                   score := 0, bulletsLoaded := 3, lastReloadTime := 0 }),
           ("B", { x := 30, y := 10, color := "c2", name := "B", hp := 5, facing := .down,
                   score := 0, bulletsLoaded := 3, lastReloadTime := 0 })]
        projectiles := [⟨1, 13, 6, 1, 0, "A"⟩]
        cacti := CACTI_LAYOUT.map (fun c => { x := c.1, y := c.2, used := false })
        state := .playing
        hostId := some "A"
        countdownTimeout := none
        restartTimeout := none }
    toRem := []
    remaining := []
    spawned := []
    nextId := 100 }

/-- Concrete room refuting C2 as frozen: two projectiles converge on the
unused cactus at (14,6) from opposite sides. -/
def cRoomC2 : Room :=
  { wStC2.room with projectiles := [⟨1, 13, 6, 1, 0, "A"⟩, ⟨2, 15, 6, -1, 0, "B"⟩] }

/-- Association lookup in a grouping map. -/
def alookup {κ : Type} [DecidableEq κ] : List (κ × List Proj) → κ → Option (List Proj)
  | [], _ => none
  | e :: rest, k => if e.1 = k then some e.2 else alookup rest k

/-- The positive-direction subset of a segment group, in original order. -/
def segGroup (ps : List Proj) (k : SegKey) : List Proj :=
  ps.filter (fun p => segKeyOf p = some k)

/-- Number of pairs cancelled in a segment group. -/
def nPairsSeg (ps : List Proj) (k : SegKey) : Nat :=
  min ((segGroup ps k).filter (isPosDir k)).length
    ((segGroup ps k).filter (isNegDir k)).length

/-- A destination-cell group of the phase-2 input, in original order. -/
def tileGroup (ps : List Proj) (t : Int × Int) : List Proj :=
  ps.filter (fun p => tileKeyOf p = t)

/-- The left-moving subset of a tile group. -/
def leftsOf (l : List Proj) : List Proj :=
  l.filter (fun p => dirTag p = some Arrow.left)

/-- The right-moving subset of a tile group. -/
def rightsOf (l : List Proj) : List Proj :=
  l.filter (fun p => dirTag p = some Arrow.right)

/-- The up-moving subset of a tile group. -/
def upsOf (l : List Proj) : List Proj :=
  l.filter (fun p => dirTag p = some Arrow.up)

/-- The down-moving subset of a tile group. -/
def downsOf (l : List Proj) : List Proj :=
  l.filter (fun p => dirTag p = some Arrow.down)

/-- Number of left/right pairs cancelled in a tile group. -/
def nLR (l : List Proj) : Nat :=
  min (leftsOf l).length (rightsOf l).length

/-- Number of up/down pairs cancelled in a tile group. -/
def nUD (l : List Proj) : Nat :=
  min (upsOf l).length (downsOf l).length

/-! ## Basic lemmas -/

theorem reflectWall_in_bounds {x y : Int} (h : isReflectWall x y = true) :
    ¬ (x < 0 ∨ GRID_W ≤ x ∨ y < 0 ∨ GRID_H ≤ y) := by
  simp only [isReflectWall, REFLECT_WALLS, List.any_eq_true, List.mem_cons,
    List.not_mem_nil, or_false, decide_eq_true_eq] at h
  rcases h with ⟨w, hw, hx, hy⟩
  simp only [GRID_W, GRID_H]
  rcases hw with h | h | h | h <;> subst h <;> subst hx <;> subst hy <;> omega

theorem reloadBullets_shape (now : Int) (p : Player) :
    ∃ b t, (reloadBullets now p).1 = { p with bulletsLoaded := b, lastReloadTime := t } := by
  unfold reloadBullets
  repeat' first
    | (exact ⟨_, _, rfl⟩)
    | split
    | simp only []

theorem reloadBullets_keeps_frame (now : Int) (p : Player) :
    ((reloadBullets now p).1.x = p.x ∧ (reloadBullets now p).1.y = p.y)
      ∧ (reloadBullets now p).1.hp = p.hp
      ∧ (reloadBullets now p).1.facing = p.facing
      ∧ (reloadBullets now p).1.score = p.score
      ∧ (reloadBullets now p).1.color = p.color
      ∧ (reloadBullets now p).1.name = p.name := by
  obtain ⟨b, t, h⟩ := reloadBullets_shape now p
  rw [h]
  simp

/-- C7: for a player below the ammunition cap with a valid reload anchor and
at least one full 1000 ms interval elapsed, `reloadBullets` grants
`floor(elapsed / 1000)` units capped at 3 and advances the anchor by exactly
`unitsGranted × 1000` ms (not to `now`), preserving fractional progress, and
reports a change; for a player already at the cap it only re-anchors the
clock to `now` and reports no change. -/
theorem claim7_reload_grants :
    (∀ (now : Int) (p : Player),
        p.bulletsLoaded < MAX_BULLETS →
        p.lastReloadTime ≠ 0 →
        BULLET_RELOAD_MS ≤ now - p.lastReloadTime →
        reloadBullets now p =
          ({ p with
              bulletsLoaded :=
                min MAX_BULLETS (p.bulletsLoaded + (now - p.lastReloadTime) / BULLET_RELOAD_MS)
              lastReloadTime := p.lastReloadTime +
                (min MAX_BULLETS (p.bulletsLoaded + (now - p.lastReloadTime) / BULLET_RELOAD_MS)
                  - p.bulletsLoaded) * BULLET_RELOAD_MS },
           true))
    ∧ (∀ (now : Int) (p : Player), MAX_BULLETS ≤ p.bulletsLoaded →
        reloadBullets now p = ({ p with lastReloadTime := now }, false)) := by
  constructor
  · intro now p hb ht he
    unfold reloadBullets
    simp only [MAX_BULLETS, BULLET_RELOAD_MS] at hb ht he ⊢
    rw [if_neg (by omega), if_neg ht, if_neg (by omega), if_neg (by omega), Prod.mk.injEq]
    exact ⟨rfl, by simp only [decide_eq_true_eq, ne_eq]; omega⟩
  · intro now p hb
    unfold reloadBullets
    rw [if_pos hb]

/-- Witness for C7 at a concrete player: ammunition 1, anchor 1000, now 3500
(2500 ms elapsed) grants 2 units to reach 3 and advances the anchor to 3000. -/
theorem claim7_reload_grants_witness :
    reloadBullets 3500
        { x := 0, y := 0, color := "c", name := "w", hp := 5, facing := .up,
          score := 0, bulletsLoaded := 1, lastReloadTime := 1000 } =
      ({ x := 0, y := 0, color := "c", name := "w", hp := 5, facing := .up,
         score := 0, bulletsLoaded := 3, lastReloadTime := 3000 }, true) := by
  have h := claim7_reload_grants.1 3500
    { x := 0, y := 0, color := "c", name := "w", hp := 5, facing := .up,
      score := 0, bulletsLoaded := 1, lastReloadTime := 1000 }
    (by decide) (by decide) (by decide)
  rw [h]
  decide

theorem reloadBullets_ammo (now : Int) (p : Player) :
    ((0 ≤ p.bulletsLoaded ∧ p.bulletsLoaded ≤ MAX_BULLETS) →
        0 ≤ (reloadBullets now p).1.bulletsLoaded
          ∧ (reloadBullets now p).1.bulletsLoaded ≤ MAX_BULLETS)
    ∧ p.bulletsLoaded ≤ (reloadBullets now p).1.bulletsLoaded := by
  unfold reloadBullets
  simp only [MAX_BULLETS, BULLET_RELOAD_MS]
  repeat' first
    | split
    | simp only []
  all_goals omega

theorem lookupP_mem {players : List (String × Player)} {k : String} {v : Player}
    (h : lookupP players k = some v) : (k, v) ∈ players := by
  induction players with
  | nil => simp [lookupP] at h
  | cons e rest ih =>
      rw [lookupP] at h
      by_cases hk : e.1 = k
      · rw [if_pos hk] at h
        cases e
        simp_all
      · rw [if_neg hk] at h
        exact List.mem_cons_of_mem _ (ih h)

theorem setPlayer_ammo {room : Room} {sock : String} {q : Player}
    (hq : ammoOK q) (h : ∀ e ∈ room.players, ammoOK e.2) :
    ∀ e ∈ (setPlayer room sock q).players, ammoOK e.2 := by
  intro e he
  simp only [setPlayer, List.mem_map] at he
  obtain ⟨e0, he0, rfl⟩ := he
  by_cases hk : e0.1 = sock
  · simpa [hk] using hq
  · simpa [hk] using h e0 he0

theorem damagePlayer_ammo {room : Room} {pid : String}
    (h : ∀ e ∈ room.players, ammoOK e.2) :
    ∀ e ∈ (damagePlayer room pid).players, ammoOK e.2 := by
  intro e he
  simp only [damagePlayer, List.mem_map] at he
  obtain ⟨e0, he0, rfl⟩ := he
  have := h e0 he0
  by_cases hk : e0.1 = pid
  · simp only [hk, if_pos]
    simpa [ammoOK] using this
  · simpa [hk] using this

theorem handleRoundEnd_ammo {room : Room} (h : ∀ e ∈ room.players, ammoOK e.2) :
    ∀ e ∈ (handleRoundEndIfNeeded room).players, ammoOK e.2 := by
  unfold handleRoundEndIfNeeded
  repeat' first
    | split
    | simp only []
  · exact h
  · exact h
  · intro e he
    simp only [List.mem_map] at he
    obtain ⟨e0, he0, rfl⟩ := he
    have hok := h e0 he0
    split
    · simpa [ammoOK] using hok
    · simpa using hok
  · exact h

/-- C8: ammunition stays an integer in `0..3` across every operation that
touches it — join (`newPlayer`), round start, reload, and shoot — a reload
never decreases the count (granting never applies a negative number of
elapsed intervals), and a shot never drives it below zero. -/
theorem claim8_ammo_invariant :
    (∀ (pos : Int × Int) (color name : String) (now : Int),
        ammoOK (newPlayer pos color name now))
    ∧ (∀ (now : Int) (p : Player), ammoOK p → ammoOK (reloadBullets now p).1)
    ∧ (∀ (now : Int) (p : Player), p.bulletsLoaded ≤ (reloadBullets now p).1.bulletsLoaded)
    ∧ (∀ (room : Room) (now : Int) (spawnF : Nat → Int × Int),
        (∀ e ∈ room.players, ammoOK e.2) →
        ∀ e ∈ (startRound room now spawnF).1.players, ammoOK e.2)
    ∧ (∀ (room : Room) (sock : String) (now : Int) (nid : Nat),
        (∀ e ∈ room.players, ammoOK e.2) →
        ∀ e ∈ (shootHandler room sock now nid).1.players, ammoOK e.2) := by
  refine ⟨?_, ?_, ?_, ?_, ?_⟩
  · intro pos color name now
    simp [newPlayer, ammoOK, MAX_BULLETS]
  · intro now p hp
    exact (reloadBullets_ammo now p).1 hp
  · intro now p
    exact (reloadBullets_ammo now p).2
  · intro room now spawnF h
    unfold startRound
    simp only []
    split
    · exact h
    · intro e he
      simp only [List.mem_map] at he
      obtain ⟨e0, _, rfl⟩ := he
      simp [ammoOK, MAX_BULLETS]
  · intro room sock now nid h
    unfold shootHandler
    simp only []
    split
    · exact h
    · split
      · exact h
      · rename_i pl heq
        split
        · exact h
        · have hmem := lookupP_mem heq
          have hsh : ammoOK pl := h _ hmem
          have h1 : ammoOK (reloadBullets now pl).1 := (reloadBullets_ammo now pl).1 hsh
          have hstep1 := @setPlayer_ammo room sock _ h1 h
          split
          · exact hstep1
          · have h2 : ammoOK { (reloadBullets now pl).1 with
                bulletsLoaded := max 0 ((reloadBullets now pl).1.bulletsLoaded - 1) } := by
              rcases h1 with ⟨ha, hb⟩
              simp only [ammoOK, MAX_BULLETS] at *
              constructor
              · simp
              · omega
            have hstep2 := @setPlayer_ammo (setPlayer room sock (reloadBullets now pl).1) sock _ h2 hstep1
            split
            · exact hstep2
            · split
              · exact hstep2
              · split
                · exact handleRoundEnd_ammo (damagePlayer_ammo hstep2)
                · exact hstep2

/-- Witness for C8 at a concrete player below the cap: the reload keeps the
ammunition inside `0..3`. -/
theorem claim8_ammo_invariant_witness :
    ammoOK { x := 0, y := 0, color := "c", name := "w", hp := 5, facing := Facing.up,
             score := 0, bulletsLoaded := 2, lastReloadTime := 500 }
    ∧ ammoOK (reloadBullets 2000
        { x := 0, y := 0, color := "c", name := "w", hp := 5, facing := Facing.up,
          score := 0, bulletsLoaded := 2, lastReloadTime := 500 }).1 :=
  ⟨by decide,
   claim8_ammo_invariant.2.1 2000
     { x := 0, y := 0, color := "c", name := "w", hp := 5, facing := Facing.up,
       score := 0, bulletsLoaded := 2, lastReloadTime := 500 }
     (by decide)⟩

/-- C9: after a disconnect, a room left with zero players is removed from the
registry (the handler returns `none`); a room left with one player while its
state was not `round_over` ends in `waiting`; and when the disconnecting
player held host status, the host becomes the first remaining member in
entry-enumeration order. -/
theorem claim9_disconnect :
    (∀ (room : Room) (sock : String),
        room.players.filter (fun e => ¬ e.1 = sock) = [] →
        disconnectHandler room sock = none)
    ∧ (∀ (room : Room) (sock : String) (r : Room),
        disconnectHandler room sock = some r →
        room.state ≠ .round_over →
        (room.players.filter (fun e => ¬ e.1 = sock)).length = 1 →
        r.state = .waiting)
    ∧ (∀ (room : Room) (sock : String) (r : Room),
        disconnectHandler room sock = some r →
        room.hostId = some sock →
        r.hostId = ((room.players.filter (fun e => ¬ e.1 = sock)).map Prod.fst).head?) := by
  refine ⟨?_, ?_, ?_⟩
  · intro room sock h
    unfold disconnectHandler
    simp only [h]
    rfl
  · intro room sock r hr hstate hlen
    unfold disconnectHandler at hr
    simp only [] at hr
    rw [if_neg (by rw [hlen]; omega)] at hr
    by_cases hst : room.state ≠ RState.waiting ∧ room.state ≠ RState.round_over
    · rw [if_pos hst] at hr
      cases hr
      rfl
    · rw [if_neg hst] at hr
      cases hr
      push_neg at hst
      rcases eq_or_ne room.state RState.waiting with hw | hw
      · exact hw
      · exact absurd (hst hw) hstate
  · intro room sock r hr hhost
    unfold disconnectHandler at hr
    simp only [hhost, if_pos] at hr
    by_cases hlen : (room.players.filter (fun e => ¬ e.1 = sock)).length = 0
    · rw [if_pos hlen] at hr
      cases hr
    · rw [if_neg hlen] at hr
      split at hr <;> (cases hr; rfl)

/-- Witness for C9: in a two-player room in `playing` whose host "A"
disconnects, the room survives with host "B" and state `waiting`. -/
theorem claim9_disconnect_witness :
    (disconnectHandler
        { players :=
            [("A", { x := 1, y := 1, color := "c1", name := "A", hp := 5, facing := .down,
                     score := 0, bulletsLoaded := 3, lastReloadTime := 0 }),
             ("B", { x := 2, y := 1, color := "c2", name := "B", hp := 5, facing := .down,
                     score := 0, bulletsLoaded := 3, lastReloadTime := 0 })]
          projectiles := []
          cacti := []
          state := .playing
          hostId := some "A"
          countdownTimeout := none
          restartTimeout := none } "A").elim False (fun r => r.state = .waiting ∧ r.hostId = some "B") := by
  have h2 := claim9_disconnect.2.1
  have h3 := claim9_disconnect.2.2
  cases hcall : disconnectHandler
      { players :=
          [("A", { x := 1, y := 1, color := "c1", name := "A", hp := 5, facing := .down,
                   score := 0, bulletsLoaded := 3, lastReloadTime := 0 }),
           ("B", { x := 2, y := 1, color := "c2", name := "B", hp := 5, facing := .down,
                   score := 0, bulletsLoaded := 3, lastReloadTime := 0 })]
        projectiles := []
        cacti := []
        state := .playing
        hostId := some "A"
        countdownTimeout := none
        restartTimeout := none } "A" with
  | none => exact absurd hcall (by decide)
  | some r =>
      refine ⟨h2 _ _ _ hcall (by decide) (by decide), ?_⟩
      rw [h3 _ _ _ hcall (by decide)]
      decide

/-- C6: `startRound` with fewer than two players yields `waiting` (never
`countdown`); with at least two it cancels both pending timers, clears all
projectiles, re-arms every cactus, respawns every player with the spawn
selector's cell, health 5, facing down, and full ammunition, and enters
`countdown` announcing the fixed 3000 ms delay. -/
theorem claim6_startRound (room : Room) (now : Int) (spawnF : Nat → Int × Int) :
    (room.players.length < 2 →
        (startRound room now spawnF).1.state = .waiting
        ∧ (startRound room now spawnF).2 = [.roundState .waiting none])
    ∧ (2 ≤ room.players.length →
        (startRound room now spawnF).1.state = .countdown
        ∧ (startRound room now spawnF).1.countdownTimeout = some 3000
        ∧ (startRound room now spawnF).1.restartTimeout = none
        ∧ (startRound room now spawnF).1.projectiles = []
        ∧ (startRound room now spawnF).1.cacti
            = room.cacti.map (fun c => { c with used := false })
        ∧ (startRound room now spawnF).2 = [.roundState .countdown (some 3000)]
        ∧ (∀ i : Nat,
            (startRound room now spawnF).1.players[i]?
              = (room.players[i]?).map (fun e =>
                  (e.1, { e.2 with
                            x := (spawnF i).1
                            y := (spawnF i).2
                            hp := 5
                            facing := Facing.down
                            bulletsLoaded := MAX_BULLETS
                            lastReloadTime := now })))) := by
  constructor
  · intro hlt
    unfold startRound
    rw [if_pos (by simpa using hlt)]
    exact ⟨rfl, rfl⟩
  · intro hge
    unfold startRound
    rw [if_neg (by simp; omega)]
    refine ⟨rfl, rfl, rfl, rfl, rfl, rfl, ?_⟩
    intro i
    cases h : room.players[i]? <;>
      simp [List.getElem?_map, List.getElem?_enum, h]

/-- Witness for C6: a concrete two-player room enters countdown with the
3000 ms announcement. -/
theorem claim6_startRound_witness :
    2 ≤ ([("A", { x := 1, y := 1, color := "c1", name := "A", hp := 2, facing := .up,
                  score := 1, bulletsLoaded := 1, lastReloadTime := 7 }),
          ("B", { x := 2, y := 1, color := "c2", name := "B", hp := 0, facing := .left,
                  score := 4, bulletsLoaded := 0, lastReloadTime := 9 })] :
            List (String × Player)).length
    ∧ (startRound
        { players :=
            [("A", { x := 1, y := 1, color := "c1", name := "A", hp := 2, facing := .up,
                     score := 1, bulletsLoaded := 1, lastReloadTime := 7 }),
             ("B", { x := 2, y := 1, color := "c2", name := "B", hp := 0, facing := .left,
                     score := 4, bulletsLoaded := 0, lastReloadTime := 9 })]
          projectiles := [⟨5, 3, 3, 1, 0, "A"⟩]
          cacti := [⟨14, 6, true⟩]
          state := .round_over
          hostId := some "A"
          countdownTimeout := some 3000
          restartTimeout := some 2000 } 42 (fun i => (Int.ofNat i, 0))).1.state = .countdown :=
  ⟨by decide,
   ((claim6_startRound
      { players :=
          [("A", { x := 1, y := 1, color := "c1", name := "A", hp := 2, facing := .up,
                   score := 1, bulletsLoaded := 1, lastReloadTime := 7 }),
           ("B", { x := 2, y := 1, color := "c2", name := "B", hp := 0, facing := .left,
                   score := 4, bulletsLoaded := 0, lastReloadTime := 9 })]
        projectiles := [⟨5, 3, 3, 1, 0, "A"⟩]
        cacti := [⟨14, 6, true⟩]
        state := .round_over
        hostId := some "A"
        countdownTimeout := some 3000
        restartTimeout := some 2000 } 42 (fun i => (Int.ofNat i, 0))).2 (by decide)).1⟩

theorem lookupP_map_players (players : List (String × Player)) (sock : String)
    (q : Player) (k : String) :
    lookupP (players.map (fun e => if e.1 = sock then (e.1, q) else e)) k
      = (lookupP players k).map (fun v => if k = sock then q else v) := by
  induction players with
  | nil => rfl
  | cons e rest ih =>
      simp only [List.map_cons, lookupP]
      have h1 : (if e.1 = sock then (e.1, q) else e).1 = e.1 := by
        by_cases hs : e.1 = sock <;> simp [hs]
      rw [h1]
      by_cases hk : e.1 = k
      · subst hk
        by_cases hs : e.1 = sock <;> simp [hs]
      · rw [if_neg hk, if_neg hk, ih]

theorem setPlayer_setPlayer (room : Room) (sock : String) (p q : Player) :
    setPlayer (setPlayer room sock p) sock q = setPlayer room sock q := by
  unfold setPlayer
  simp only [List.map_map]
  have hfun : ((fun e : String × Player => if e.1 = sock then (e.1, q) else e)
        ∘ (fun e : String × Player => if e.1 = sock then (e.1, p) else e))
      = (fun e : String × Player => if e.1 = sock then (e.1, q) else e) := by
    funext e
    by_cases he : e.1 = sock <;> simp [Function.comp, he]
  rw [hfun]

theorem facingToDelta_ne00 (f : Facing) :
    ¬ ((facingToDelta f).1 = 0 ∧ (facingToDelta f).2 = 0) := by
  cases f <;> simp [facingToDelta]

/-- C10 (amended): a shoot action by a living player in a playing room whose
post-reload ammunition is positive and whose muzzle cell is out of bounds, a
wall, a reflect wall, or a cactus consumes exactly one unit of the
post-opportunistic-reload ammunition and creates no projectile: the result is
exactly the room with the shooter replaced by the reloaded-then-decremented
record — the projectile list, the projectile-id counter, cacti, state, host,
timers, and every other player are unchanged. -/
theorem claim10_blocked_muzzle (room : Room) (sock : String) (now : Int) (nid : Nat)
    (sh : Player)
    (hstate : room.state = .playing)
    (hlook : lookupP room.players sock = some sh)
    (halive : ¬ sh.hp ≤ 0)
    (hammo : ¬ (reloadBullets now sh).1.bulletsLoaded ≤ 0)
    (hblock :
      sh.x + (facingToDelta sh.facing).1 < 0
        ∨ GRID_W ≤ sh.x + (facingToDelta sh.facing).1
        ∨ sh.y + (facingToDelta sh.facing).2 < 0
        ∨ GRID_H ≤ sh.y + (facingToDelta sh.facing).2
        ∨ isWall (sh.x + (facingToDelta sh.facing).1) (sh.y + (facingToDelta sh.facing).2)
        ∨ isReflectWall (sh.x + (facingToDelta sh.facing).1) (sh.y + (facingToDelta sh.facing).2)
        ∨ (getCactusAt room.cacti (sh.x + (facingToDelta sh.facing).1)
            (sh.y + (facingToDelta sh.facing).2)).isSome) :
    shootHandler room sock now nid
      = (setPlayer room sock
          { (reloadBullets now sh).1 with
              bulletsLoaded := (reloadBullets now sh).1.bulletsLoaded - 1 }, nid)
    ∧ (shootHandler room sock now nid).1.projectiles = room.projectiles
    ∧ (shootHandler room sock now nid).1.cacti = room.cacti
    ∧ (shootHandler room sock now nid).1.state = room.state
    ∧ (shootHandler room sock now nid).1.hostId = room.hostId
    ∧ (shootHandler room sock now nid).1.countdownTimeout = room.countdownTimeout
    ∧ (shootHandler room sock now nid).1.restartTimeout = room.restartTimeout
    ∧ (shootHandler room sock now nid).2 = nid
    ∧ lookupP (shootHandler room sock now nid).1.players sock
        = some { (reloadBullets now sh).1 with
                   bulletsLoaded := (reloadBullets now sh).1.bulletsLoaded - 1 }
    ∧ (∀ e ∈ room.players, e.1 ≠ sock → e ∈ (shootHandler room sock now nid).1.players) := by
  obtain ⟨⟨hx, hy⟩, hhp, hface, hscore, hcolor, hname⟩ := reloadBullets_keeps_frame now sh
  have hmax : max 0 ((reloadBullets now sh).1.bulletsLoaded - 1)
      = (reloadBullets now sh).1.bulletsLoaded - 1 := by omega
  have heq : shootHandler room sock now nid
      = (setPlayer room sock
          { (reloadBullets now sh).1 with
              bulletsLoaded := (reloadBullets now sh).1.bulletsLoaded - 1 }, nid) := by
    unfold shootHandler
    rw [if_neg (by simp [hstate]), hlook]
    simp only []
    rw [if_neg halive, if_neg hammo, hmax]
    rw [if_neg (by
      intro hc
      exact facingToDelta_ne00 ((reloadBullets now sh).1.facing) hc)]
    rw [if_pos (by
      simp only [setPlayer]
      rw [hx, hy, hface]
      exact hblock)]
    rw [setPlayer_setPlayer]
  refine ⟨heq, ?_, ?_, ?_, ?_, ?_, ?_, ?_, ?_, ?_⟩
  · rw [heq]; rfl
  · rw [heq]; rfl
  · rw [heq]; rfl
  · rw [heq]; rfl
  · rw [heq]; rfl
  · rw [heq]; rfl
  · rw [heq]
  · rw [heq]
    show lookupP (setPlayer room sock _).players sock = _
    unfold setPlayer
    rw [lookupP_map_players, hlook]
    simp
  · intro e he hne
    rw [heq]
    show e ∈ (setPlayer room sock _).players
    unfold setPlayer
    exact List.mem_map.2 ⟨e, he, by simp [hne]⟩

/-- Witness for C10 at a concrete room: shooter at the top edge facing up
(muzzle out of bounds), 2 bullets, no reload interval elapsed — the shot
consumes one bullet, the projectile list stays empty and the id counter is
untouched. -/
theorem claim10_blocked_muzzle_witness :
    (shootHandler
        { players :=
            [("A", { x := 3, y := 0, color := "c1", name := "A", hp := 5, facing := .up,
                     score := 0, bulletsLoaded := 2, lastReloadTime := 100 }),
             ("B", { x := 20, y := 10, color := "c2", name := "B", hp := 5, facing := .down,
                     score := 0, bulletsLoaded := 3, lastReloadTime := 100 })]
          projectiles := []
          cacti := []
          state := .playing
          hostId := some "A"
          countdownTimeout := none
          restartTimeout := none } "A" 500 9).1.projectiles = []
    ∧ (shootHandler
        { players :=
            [("A", { x := 3, y := 0, color := "c1", name := "A", hp := 5, facing := .up,
                     score := 0, bulletsLoaded := 2, lastReloadTime := 100 }),
             ("B", { x := 20, y := 10, color := "c2", name := "B", hp := 5, facing := .down,
                     score := 0, bulletsLoaded := 3, lastReloadTime := 100 })]
          projectiles := []
          cacti := []
          state := .playing
          hostId := some "A"
          countdownTimeout := none
          restartTimeout := none } "A" 500 9).2 = 9 := by
  have h := claim10_blocked_muzzle
    { players :=
        [("A", { x := 3, y := 0, color := "c1", name := "A", hp := 5, facing := .up,
                 score := 0, bulletsLoaded := 2, lastReloadTime := 100 }),
         ("B", { x := 20, y := 10, color := "c2", name := "B", hp := 5, facing := .down,
                 score := 0, bulletsLoaded := 3, lastReloadTime := 100 })]
      projectiles := []
      cacti := []
      state := .playing
      hostId := some "A"
      countdownTimeout := none
      restartTimeout := none } "A" 500 9
    { x := 3, y := 0, color := "c1", name := "A", hp := 5, facing := .up,
      score := 0, bulletsLoaded := 2, lastReloadTime := 100 }
    rfl rfl (by decide) (by decide) (by decide)
  exact ⟨h.2.1, h.2.2.2.2.2.2.2.1⟩

/-- Counterexample to C10 as frozen: the claim demands that the shooter's
ammunition decrease by exactly one (from 1 to 0 here), but the opportunistic
reload inside the shoot handler first grants two units (2500 ms elapsed), so
the blocked shot nets `1 → 3 → 2`: the count increases.  All other
conditions of the claim hold at this input (living shooter, playing room,
ammunition `1 > 0`, muzzle out of bounds, no projectile created). -/
theorem claim10_blocked_muzzle_counterexample :
    bulletsOf
        { players :=
            [("A", { x := 0, y := 0, color := "c1", name := "A", hp := 5, facing := .up,
                     score := 0, bulletsLoaded := 1, lastReloadTime := 1000 }),
             ("B", { x := 20, y := 10, color := "c2", name := "B", hp := 5, facing := .down,
                     score := 0, bulletsLoaded := 3, lastReloadTime := 1000 })]
          projectiles := []
          cacti := []
          state := .playing
          hostId := some "A"
          countdownTimeout := none
          restartTimeout := none } "A" = some 1
    ∧ bulletsOf
        (shootHandler
          { players :=
              [("A", { x := 0, y := 0, color := "c1", name := "A", hp := 5, facing := .up,
                       score := 0, bulletsLoaded := 1, lastReloadTime := 1000 }),
               ("B", { x := 20, y := 10, color := "c2", name := "B", hp := 5, facing := .down,
                       score := 0, bulletsLoaded := 3, lastReloadTime := 1000 })]
            projectiles := []
            cacti := []
            state := .playing
            hostId := some "A"
            countdownTimeout := none
            restartTimeout := none } "A" 3500 77).1 "A" = some 2
    ∧ ((2 : Int) ≠ 1 - 1) := by
  refine ⟨by decide, by decide, by decide⟩

/-! ## Round-end lemmas -/

theorem alive_eq_countP (players : List (String × Player)) :
    (players.filter (fun e => 0 < e.2.hp)).length
      = players.countP (fun e => 0 < e.2.hp) :=
  (List.countP_eq_length_filter _ _).symm

theorem handleRoundEnd_aliveCount (room : Room) :
    aliveCount (handleRoundEndIfNeeded room) = aliveCount room := by
  unfold handleRoundEndIfNeeded
  repeat' first
    | split
    | simp only []
  all_goals try rfl
  show aliveCount _ = aliveCount room
  unfold aliveCount aliveList
  simp only []
  rw [alive_eq_countP, alive_eq_countP, List.countP_map]
  apply List.countP_congr
  intro e _
  simp only [Function.comp]
  split <;> simp

theorem handleRoundEnd_round_over {room : Room}
    (hstate : room.state = .playing) (halive : aliveCount room ≤ 1) :
    (handleRoundEndIfNeeded room).state = .round_over := by
  unfold handleRoundEndIfNeeded
  rw [if_neg (by simp [hstate])]
  simp only []
  rw [if_neg (by
    unfold aliveCount aliveList at halive
    omega)]
  split <;> rfl

theorem handleRoundEnd_cases (room : Room) :
    handleRoundEndIfNeeded room = room
      ∨ (handleRoundEndIfNeeded room).state = .round_over := by
  unfold handleRoundEndIfNeeded
  repeat' first
    | split
    | simp only []
  all_goals simp

theorem handleRoundEnd_playing_cases {room : Room} (hstate : room.state = .playing) :
    (handleRoundEndIfNeeded room).state = .round_over
      ∨ (handleRoundEndIfNeeded room = room ∧ 1 < aliveCount room) := by
  unfold handleRoundEndIfNeeded
  rw [if_neg (by simp [hstate])]
  simp only []
  by_cases h1 : 1 < (room.players.filter (fun e => 0 < e.2.hp)).length
  · rw [if_pos h1]
    exact Or.inr ⟨rfl, h1⟩
  · rw [if_neg h1]
    split <;> simp

theorem handleRoundEnd_not_playing {room : Room} (h : room.state ≠ .playing) :
    handleRoundEndIfNeeded room = room := by
  unfold handleRoundEndIfNeeded
  rw [if_pos h]

theorem lookupP_self {players : List (String × Player)} (h : (players.map Prod.fst).Nodup)
    {e : String × Player} (he : e ∈ players) : lookupP players e.1 = some e.2 := by
  induction players with
  | nil => cases he
  | cons a rest ih =>
      rw [List.map_cons, List.nodup_cons] at h
      rcases List.mem_cons.1 he with rfl | hmem
      · rw [lookupP, if_pos rfl]
      · rw [lookupP]
        by_cases ha : a.1 = e.1
        · exact absurd (ha ▸ List.mem_map_of_mem Prod.fst hmem) h.1
        · rw [if_neg ha]
          exact ih h.2 hmem

theorem aliveCount_setPlayer {room : Room} {sock : String} {pl q : Player}
    (hnd : keysNodup room) (hlook : lookupP room.players sock = some pl)
    (hhp : q.hp = pl.hp) :
    aliveCount (setPlayer room sock q) = aliveCount room := by
  unfold aliveCount aliveList setPlayer
  simp only []
  rw [alive_eq_countP, alive_eq_countP, List.countP_map]
  apply List.countP_congr
  intro e he
  simp only [Function.comp]
  by_cases hk : e.1 = sock
  · have hv : some e.2 = some pl := by
      have hs := lookupP_self hnd he
      rw [hk, hlook] at hs
      exact hs.symm
    have hv2 : e.2 = pl := Option.some_inj.1 hv
    simp [hk, hhp, hv2]
  · simp [hk]

theorem reloadPhase_aliveCount (now : Int) (room : Room) :
    aliveCount (reloadPhase now room) = aliveCount room := by
  unfold reloadPhase
  split
  · unfold aliveCount aliveList
    simp only []
    rw [alive_eq_countP, alive_eq_countP, List.countP_map]
    apply List.countP_congr
    intro e _
    have hhp := (reloadBullets_keeps_frame now e.2).2.1
    simp [Function.comp, hhp]
  · rfl

theorem reloadPhase_state (now : Int) (room : Room) :
    (reloadPhase now room).state = room.state := by
  unfold reloadPhase
  split <;> rfl

theorem moveHandler_shape (room : Room) (sock : String) (dir : Facing) :
    moveHandler room sock dir = room
    ∨ (∃ pl q, lookupP room.players sock = some pl ∧ q.hp = pl.hp
        ∧ moveHandler room sock dir = setPlayer room sock q)
    ∨ (∃ q, moveHandler room sock dir = handleRoundEndIfNeeded (setPlayer room sock q)) := by
  unfold moveHandler
  split
  · exact Or.inl rfl
  · split
    · exact Or.inl rfl
    · rename_i pl hlook
      simp only []
      split
      · exact Or.inl rfl
      · split
        · exact Or.inr (Or.inl ⟨pl,
            { pl with facing := facingFromDelta (facingToDelta dir).1 (facingToDelta dir).2 pl.facing },
            hlook, rfl, rfl⟩)
        · split
          · refine Or.inr (Or.inr ⟨{ pl with
                x := pl.x + (facingToDelta dir).1
                y := pl.y + (facingToDelta dir).2
                facing := facingFromDelta (facingToDelta dir).1 (facingToDelta dir).2 pl.facing
                hp := max 0 (pl.hp - 1) }, ?_⟩)
            rw [setPlayer_setPlayer, setPlayer_setPlayer]
          · refine Or.inr (Or.inl ⟨pl,
              { pl with
                  x := pl.x + (facingToDelta dir).1
                  y := pl.y + (facingToDelta dir).2
                  facing := facingFromDelta (facingToDelta dir).1 (facingToDelta dir).2 pl.facing },
              hlook, rfl, ?_⟩)
            rw [setPlayer_setPlayer]

theorem shootHandler_shape (room : Room) (sock : String) (now : Int) (nid : Nat) :
    (shootHandler room sock now nid).1 = room
    ∨ (∃ pl q, lookupP room.players sock = some pl ∧ q.hp = pl.hp
        ∧ (shootHandler room sock now nid).1.players = (setPlayer room sock q).players
        ∧ (shootHandler room sock now nid).1.state = room.state)
    ∨ (∃ q tid, (shootHandler room sock now nid).1
        = handleRoundEndIfNeeded (damagePlayer (setPlayer room sock q) tid)) := by
  unfold shootHandler
  split
  · exact Or.inl rfl
  · split
    · exact Or.inl rfl
    · rename_i pl hlook
      simp only []
      split
      · exact Or.inl rfl
      · split
        · exact Or.inr (Or.inl ⟨pl, (reloadBullets now pl).1, hlook,
            (reloadBullets_keeps_frame now pl).2.1, rfl, rfl⟩)
        · split
          · exact Or.inr (Or.inl ⟨pl,
              { (reloadBullets now pl).1 with
                  bulletsLoaded := max 0 ((reloadBullets now pl).1.bulletsLoaded - 1) },
              hlook, (reloadBullets_keeps_frame now pl).2.1,
              by rw [setPlayer_setPlayer]; try rfl, by rw [setPlayer_setPlayer]; try rfl⟩)
          · split
            · exact Or.inr (Or.inl ⟨pl,
                { (reloadBullets now pl).1 with
                    bulletsLoaded := max 0 ((reloadBullets now pl).1.bulletsLoaded - 1) },
                hlook, (reloadBullets_keeps_frame now pl).2.1,
                by rw [setPlayer_setPlayer]; try rfl, by rw [setPlayer_setPlayer]; try rfl⟩)
            · split
              · rename_i tid heq
                refine Or.inr (Or.inr ⟨{ (reloadBullets now pl).1 with
                    bulletsLoaded := max 0 ((reloadBullets now pl).1.bulletsLoaded - 1) },
                    tid, ?_⟩)
                rw [setPlayer_setPlayer]
              · exact Or.inr (Or.inl ⟨pl,
                  { (reloadBullets now pl).1 with
                      bulletsLoaded := max 0 ((reloadBullets now pl).1.bulletsLoaded - 1) },
                  hlook, (reloadBullets_keeps_frame now pl).2.1,
                  by rw [setPlayer_setPlayer]; try rfl, by rw [setPlayer_setPlayer]; try rfl⟩)

theorem damagePlayer_state (room : Room) (pid : String) :
    (damagePlayer room pid).state = room.state := rfl

theorem stepProj_inv {st : TickSt} (p : Proj) (hinv : tickInv st) :
    tickInv (stepProj st p) := by
  unfold stepProj
  repeat' first
    | split
    | simp only []
  all_goals try exact hinv
  · rename_i tid heq
    rcases hinv.1 with hp | hro
    · rcases handleRoundEnd_playing_cases
          (show (damagePlayer st.room tid).state = .playing from hp) with h | ⟨heq2, hgt⟩
      · exact ⟨Or.inr h, by rw [h]; intro hc; cases hc⟩
      · refine ⟨?_, ?_⟩
        · rw [heq2]
          exact Or.inl hp
        · intro _
          rw [heq2]
          exact hgt
    · have hne : (damagePlayer st.room tid).state ≠ .playing := by
        rw [damagePlayer_state, hro]
        intro hc
        cases hc
      rw [handleRoundEnd_not_playing hne]
      exact ⟨Or.inr hro, fun hc => absurd (damagePlayer_state st.room tid ▸ hc) hne⟩

theorem foldl_stepProj_inv (l : List Proj) {st : TickSt} (hinv : tickInv st) :
    tickInv (l.foldl stepProj st) := by
  induction l generalizing st with
  | nil => exact hinv
  | cons p rest ih => exact ih (stepProj_inv p hinv)

theorem lookupP_map_bump (players : List (String × Player)) (wid : String) (k : String) :
    lookupP (players.map (fun e =>
        if e.1 = wid then (e.1, { e.2 with score := e.2.score + 1 }) else e)) k
      = (lookupP players k).map
          (fun v => if k = wid then { v with score := v.score + 1 } else v) := by
  induction players with
  | nil => rfl
  | cons e rest ih =>
      simp only [List.map_cons, lookupP]
      have h1 : (if e.1 = wid then (e.1, { e.2 with score := e.2.score + 1 }) else e).1
          = e.1 := by
        by_cases hs : e.1 = wid <;> simp [hs]
      rw [h1]
      by_cases hk : e.1 = k
      · subst hk
        by_cases hs : e.1 = wid <;> simp [hs]
      · rw [if_neg hk, if_neg hk, ih]

/-- C4: whenever a health-reducing event (spike step in the move handler,
point-blank shot in the shoot handler, or projectile hit in the tick) drops
the alive count of a playing room to at most one, the state becomes
`round_over` within that same synchronous invocation; at the transition,
exactly the lone survivor's score is incremented by one, and no score changes
on a double elimination. -/
theorem claim4_synchronous_round_end :
    (∀ room : Room, room.state = .playing → aliveCount room ≤ 1 →
        (handleRoundEndIfNeeded room).state = .round_over)
    ∧ (∀ (room : Room) (wid : String) (wp : Player), room.state = .playing →
        aliveList room = [(wid, wp)] →
        ∀ pid, scoreOf (handleRoundEndIfNeeded room) pid
          = (scoreOf room pid).map (fun s => if pid = wid then s + 1 else s))
    ∧ (∀ room : Room, room.state = .playing → aliveList room = [] →
        (handleRoundEndIfNeeded room).players = room.players)
    ∧ (∀ (room : Room) (sock : String) (dir : Facing), keysNodup room →
        room.state = .playing → 1 < aliveCount room →
        aliveCount (moveHandler room sock dir) ≤ 1 →
        (moveHandler room sock dir).state = .round_over)
    ∧ (∀ (room : Room) (sock : String) (now : Int) (nid : Nat), keysNodup room →
        room.state = .playing → 1 < aliveCount room →
        aliveCount (shootHandler room sock now nid).1 ≤ 1 →
        (shootHandler room sock now nid).1.state = .round_over)
    ∧ (∀ (now : Int) (room : Room) (nid : Nat),
        room.state = .playing → 1 < aliveCount room →
        aliveCount (tickRoom now room nid).1 ≤ 1 →
        (tickRoom now room nid).1.state = .round_over) := by
  refine ⟨?_, ?_, ?_, ?_, ?_, ?_⟩
  · intro room hstate halive
    exact handleRoundEnd_round_over hstate halive
  · intro room wid wp hstate halive pid
    unfold handleRoundEndIfNeeded
    rw [if_neg (by simp [hstate])]
    simp only []
    unfold aliveList at halive
    rw [if_neg (by rw [halive]; simp)]
    rw [halive]
    simp only []
    unfold scoreOf
    rw [lookupP_map_bump room.players wid pid]
    cases h : lookupP room.players pid
    · rfl
    · by_cases hw : pid = wid <;> simp [hw]
  · intro room hstate halive
    unfold handleRoundEndIfNeeded
    rw [if_neg (by simp [hstate])]
    simp only []
    unfold aliveList at halive
    rw [if_neg (by rw [halive]; simp), halive]
  · intro room sock dir hnd hstate hbig hsmall
    rcases moveHandler_shape room sock dir with h | ⟨pl, q, hlook, hqhp, h⟩ | ⟨q, h⟩
    · rw [h] at hsmall
      omega
    · rw [h] at hsmall
      rw [aliveCount_setPlayer hnd hlook hqhp] at hsmall
      omega
    · rw [h] at hsmall ⊢
      rw [handleRoundEnd_aliveCount] at hsmall
      exact handleRoundEnd_round_over hstate hsmall
  · intro room sock now nid hnd hstate hbig hsmall
    rcases shootHandler_shape room sock now nid with h | ⟨pl, q, hlook, hqhp, hpl, hst⟩ | ⟨q, tid, h⟩
    · rw [h] at hsmall
      omega
    · have hcount : aliveCount (shootHandler room sock now nid).1
          = aliveCount (setPlayer room sock q) := by
        unfold aliveCount aliveList
        rw [hpl]
      rw [hcount, aliveCount_setPlayer hnd hlook hqhp] at hsmall
      omega
    · rw [h] at hsmall ⊢
      rw [handleRoundEnd_aliveCount] at hsmall
      exact handleRoundEnd_round_over hstate hsmall
  · intro now room nid hstate hbig hsmall
    unfold tickRoom at hsmall ⊢
    by_cases hg : (reloadPhase now room).state = .playing
        ∧ (reloadPhase now room).projectiles ≠ []
    · rw [if_pos hg] at hsmall ⊢
      simp only [] at hsmall ⊢
      have hinv : tickInv ((reloadPhase now room).projectiles.foldl stepProj
          ⟨reloadPhase now room, toRemoveIds (reloadPhase now room).projectiles, [], [], nid⟩) := by
        apply foldl_stepProj_inv
        constructor
        · exact Or.inl hg.1
        · intro _
          show 1 < aliveCount (reloadPhase now room)
          rw [reloadPhase_aliveCount]
          exact hbig
      rcases hinv.1 with hp | hro
      · have hgt := hinv.2 hp
        have hct : aliveCount { ((reloadPhase now room).projectiles.foldl stepProj
              ⟨reloadPhase now room, toRemoveIds (reloadPhase now room).projectiles, [], [], nid⟩).room
            with projectiles :=
              ((reloadPhase now room).projectiles.foldl stepProj
                ⟨reloadPhase now room, toRemoveIds (reloadPhase now room).projectiles, [], [], nid⟩).remaining
              ++ ((reloadPhase now room).projectiles.foldl stepProj
                ⟨reloadPhase now room, toRemoveIds (reloadPhase now room).projectiles, [], [], nid⟩).spawned }
            = aliveCount ((reloadPhase now room).projectiles.foldl stepProj
              ⟨reloadPhase now room, toRemoveIds (reloadPhase now room).projectiles, [], [], nid⟩).room := rfl
        rw [hct] at hsmall
        omega
      · exact hro
    · rw [if_neg hg] at hsmall ⊢
      rw [reloadPhase_aliveCount] at hsmall
      omega

/-- Witness for C4: in `wRoomC4` the projectile hit drops the alive count
from 2 to 1 and the same tick invocation ends in `round_over`. -/
theorem claim4_synchronous_round_end_witness :
    wRoomC4.state = .playing ∧ 1 < aliveCount wRoomC4
    ∧ aliveCount (tickRoom 0 wRoomC4 100).1 ≤ 1
    ∧ (tickRoom 0 wRoomC4 100).1.state = .round_over :=
  ⟨rfl, by decide, by decide,
   claim4_synchronous_round_end.2.2.2.2.2 0 wRoomC4 100 rfl (by decide) (by decide)⟩

/-- C5 (code bug): the spec says the transition to `round_over` clears the
projectile list, and `handleRoundEndIfNeeded` indeed does so mid-loop, but
the tick then unconditionally executes
`room.projectiles = remaining.concat(spawned)`, so projectile 2 — processed
after the killing hit of projectile 1 — survives into `round_over`: the
invocation completes with a `round_over` room holding a non-empty projectile
list. -/
theorem claim5_projectiles_cleared_bug :
    (tickRoom 0 bugRoomC5 100).1.state = .round_over
    ∧ (tickRoom 0 bugRoomC5 100).1.projectiles = [⟨2, 3, 2, 1, 0, "B"⟩] := by
  constructor
  · decide
  · decide

/-! ## Reflect-wall lemmas (C3) -/

theorem reloadPhase_projectiles (now : Int) (room : Room) :
    (reloadPhase now room).projectiles = room.projectiles := by
  unfold reloadPhase
  split <;> rfl

theorem stepProj_remaining_mono (st : TickSt) (p : Proj) {q : Proj}
    (h : q ∈ st.remaining) : q ∈ (stepProj st p).remaining := by
  unfold stepProj
  repeat' first
    | split
    | simp only []
  all_goals try exact h
  all_goals exact List.mem_append_left _ h

theorem stepProj_toRem (st : TickSt) (p : Proj) : (stepProj st p).toRem = st.toRem := by
  unfold stepProj
  repeat' first
    | split
    | simp only []

theorem foldl_remaining_mono (l : List Proj) {st : TickSt} {q : Proj}
    (h : q ∈ st.remaining) : q ∈ (l.foldl stepProj st).remaining := by
  induction l generalizing st with
  | nil => exact h
  | cons a rest ih => exact ih (stepProj_remaining_mono st a h)

theorem foldl_reflect_mem (l : List Proj) (st : TickSt) (p : Proj)
    (hmem : p ∈ l) (hrem : p.id ∉ st.toRem)
    (hrw : isReflectWall (p.x + p.dx) (p.y + p.dy) = true) :
    { p with dx := -p.dx, dy := -p.dy } ∈ (l.foldl stepProj st).remaining := by
  induction l generalizing st with
  | nil => cases hmem
  | cons a rest ih =>
      rcases List.mem_cons.1 hmem with rfl | hmem2
      · simp only [List.foldl_cons]
        apply foldl_remaining_mono
        unfold stepProj
        rw [if_neg hrem]
        simp only []
        rw [if_neg (reflectWall_in_bounds hrw), if_pos hrw]
        exact List.mem_append_right _ (by simp)
      · simp only [List.foldl_cons]
        exact ih _ hmem2 (by rw [stepProj_toRem]; exact hrem)

/-- C3 (amended): every projectile of a playing room that is not marked by
that tick's pairwise-cancellation phases and whose tentative destination is a
reflect wall stays in flight: the next tick's projectile set contains it with
position unchanged and both direction components exactly negated (so it never
leaves the grid on that step). -/
theorem claim3_reflect_bounce (now : Int) (room : Room) (nid : Nat) (p : Proj)
    (hstate : room.state = .playing)
    (hmem : p ∈ room.projectiles)
    (hrem : p.id ∉ toRemoveIds room.projectiles)
    (hrw : isReflectWall (p.x + p.dx) (p.y + p.dy) = true) :
    { p with dx := -p.dx, dy := -p.dy } ∈ (tickRoom now room nid).1.projectiles := by
  unfold tickRoom
  rw [if_pos ⟨by rw [reloadPhase_state]; exact hstate,
      by rw [reloadPhase_projectiles]; intro hc; rw [hc] at hmem; cases hmem⟩]
  simp only []
  show _ ∈ _ ++ _
  apply List.mem_append_left
  rw [reloadPhase_projectiles]
  exact foldl_reflect_mem room.projectiles _ p hmem hrem hrw

/-- Witness for C3 (amended): the lone projectile heading into the reflect
wall at (5,5) is still at (4,5) next tick with its direction negated. -/
theorem claim3_reflect_bounce_witness :
    (⟨1, 4, 5, -1, 0, "A"⟩ : Proj) ∈ (tickRoom 0 wRoomC3 50).1.projectiles :=
  claim3_reflect_bounce 0 wRoomC3 50 ⟨1, 4, 5, 1, 0, "A"⟩ rfl
    (by decide) (by decide) (by decide)

/-- Counterexample to C3 as frozen: both projectiles of `cRoomC3` have a
reflect wall as tentative destination, yet the same-destination cancellation
pairs and destroys them — the tick ends with no projectile in flight, so
neither is "kept in flight with direction negated" as the claim demands for
every reflect-destined projectile. -/
theorem claim3_reflect_bounce_counterexample :
    (∀ p ∈ cRoomC3.projectiles, isReflectWall (p.x + p.dx) (p.y + p.dy) = true)
    ∧ cRoomC3.projectiles ≠ []
    ∧ (tickRoom 0 cRoomC3 50).1.projectiles = [] :=
  ⟨by decide, by decide, by decide⟩

/-! ## Cactus lemmas (C2) -/

theorem getCactusAt_markUsed {cacti : List Cactus} {x y : Int} {c : Cactus}
    (h : getCactusAt cacti x y = some c) :
    getCactusAt (markUsed cacti x y) x y = some { c with used := true } := by
  induction cacti with
  | nil => simp [getCactusAt] at h
  | cons a rest ih =>
      unfold getCactusAt at h ⊢
      unfold markUsed
      by_cases ha : a.x = x ∧ a.y = y
      · rw [if_pos ha]
        rw [List.find?_cons_of_pos _ (by simp [ha.1, ha.2])] at h
        rw [List.find?_cons_of_pos _ (by simp [ha.1, ha.2])]
        cases h
        rfl
      · rw [if_neg ha]
        rw [List.find?_cons_of_neg _ (by simpa using ha)] at h
        rw [List.find?_cons_of_neg _ (by simpa using ha)]
        exact ih h

theorem spawnLoop_spec (cacti : List Cactus) (nx ny : Int) (sh : String)
    (ds : List (Int × Int)) :
    ∀ nid : Nat,
      ((spawnLoop cacti nx ny sh ds nid).1.map (fun s => (s.dx, s.dy))
          = ds.filter (canSpawn cacti nx ny))
      ∧ (∀ s ∈ (spawnLoop cacti nx ny sh ds nid).1,
          s.shooterId = sh ∧ s.x = nx + s.dx ∧ s.y = ny + s.dy) := by
  induction ds with
  | nil =>
      intro nid
      exact ⟨rfl, by intro s hs; cases hs⟩
  | cons d rest ih =>
      intro nid
      unfold spawnLoop
      by_cases hc : canSpawn cacti nx ny d = true
      · rw [if_pos hc]
        constructor
        · simp only [List.map_cons, List.filter_cons, hc, if_pos]
          rw [(ih (nid + 1)).1]
        · intro s hs
          rcases List.mem_cons.1 hs with rfl | hs2
          · exact ⟨rfl, rfl, rfl⟩
          · exact (ih (nid + 1)).2 s hs2
      · rw [if_neg hc]
        constructor
        · rw [(ih nid).1]
          simp only [List.filter_cons]
          rw [if_neg (by simpa using hc)]
        · exact (ih nid).2

/-- C2 (amended): for a projectile not marked by that tick's cancellation
phases whose tentative destination holds a cactus: an unused cactus is marked
used, the projectile is destroyed (it joins neither `remaining` nor the
players/round state), and exactly one projectile inheriting the shooter's
identity spawns per cardinal direction whose adjacent cell is in bounds and
free of walls, reflect walls, and cacti (0 to 4 spawns); an already-used
cactus destroys the projectile with no spawn and no state change at all,
exactly as a solid wall does, so a triggered trap can never re-trigger within
the round. -/
theorem claim2_cactus_trigger (st : TickSt) (p : Proj) (c : Cactus)
    (hrem : p.id ∉ st.toRem)
    (hin : ¬ (p.x + p.dx < 0 ∨ GRID_W ≤ p.x + p.dx ∨ p.y + p.dy < 0 ∨ GRID_H ≤ p.y + p.dy))
    (hrw : isReflectWall (p.x + p.dx) (p.y + p.dy) = false)
    (hw : isWall (p.x + p.dx) (p.y + p.dy) = false)
    (hc : getCactusAt st.room.cacti (p.x + p.dx) (p.y + p.dy) = some c) :
    (c.used = false →
        stepProj st p
          = { st with
                room := { st.room with
                  cacti := markUsed st.room.cacti (p.x + p.dx) (p.y + p.dy) }
                spawned := st.spawned
                  ++ (cactusSpawns (markUsed st.room.cacti (p.x + p.dx) (p.y + p.dy))
                        (p.x + p.dx) (p.y + p.dy) p.shooterId st.nextId).1
                nextId := (cactusSpawns (markUsed st.room.cacti (p.x + p.dx) (p.y + p.dy))
                        (p.x + p.dx) (p.y + p.dy) p.shooterId st.nextId).2 }
        ∧ getCactusAt (markUsed st.room.cacti (p.x + p.dx) (p.y + p.dy))
            (p.x + p.dx) (p.y + p.dy) = some { c with used := true }
        ∧ ((cactusSpawns (markUsed st.room.cacti (p.x + p.dx) (p.y + p.dy))
              (p.x + p.dx) (p.y + p.dy) p.shooterId st.nextId).1.map (fun s => (s.dx, s.dy))
            = cactusDirs.filter (canSpawn (markUsed st.room.cacti (p.x + p.dx) (p.y + p.dy))
                (p.x + p.dx) (p.y + p.dy)))
        ∧ (∀ s ∈ (cactusSpawns (markUsed st.room.cacti (p.x + p.dx) (p.y + p.dy))
              (p.x + p.dx) (p.y + p.dy) p.shooterId st.nextId).1,
            s.shooterId = p.shooterId ∧ s.x = p.x + p.dx + s.dx ∧ s.y = p.y + p.dy + s.dy)
        ∧ (cactusSpawns (markUsed st.room.cacti (p.x + p.dx) (p.y + p.dy))
              (p.x + p.dx) (p.y + p.dy) p.shooterId st.nextId).1.length ≤ 4)
    ∧ (c.used = true → stepProj st p = st) := by
  have hstep : stepProj st p
      = if c.used then st
        else
          { st with
              room := { st.room with
                cacti := markUsed st.room.cacti (p.x + p.dx) (p.y + p.dy) }
              spawned := st.spawned
                ++ (cactusSpawns (markUsed st.room.cacti (p.x + p.dx) (p.y + p.dy))
                      (p.x + p.dx) (p.y + p.dy) p.shooterId st.nextId).1
              nextId := (cactusSpawns (markUsed st.room.cacti (p.x + p.dx) (p.y + p.dy))
                      (p.x + p.dx) (p.y + p.dy) p.shooterId st.nextId).2 } := by
    unfold stepProj
    rw [if_neg hrem]
    simp only []
    rw [if_neg hin, if_neg (by simp [hrw]), if_neg (by simp [hw]), hc]
  constructor
  · intro hused
    rw [hused] at hstep
    simp only [if_neg Bool.false_ne_true] at hstep
    refine ⟨hstep, getCactusAt_markUsed hc, ?_, ?_, ?_⟩
    · exact (spawnLoop_spec _ _ _ _ cactusDirs st.nextId).1
    · exact (spawnLoop_spec _ _ _ _ cactusDirs st.nextId).2
    · have hlen := congrArg List.length
        (spawnLoop_spec (markUsed st.room.cacti (p.x + p.dx) (p.y + p.dy))
          (p.x + p.dx) (p.y + p.dy) p.shooterId cactusDirs st.nextId).1
      rw [List.length_map] at hlen
      unfold cactusSpawns
      rw [hlen]
      exact List.length_filter_le _ _
  · intro hused
    rw [hused] at hstep
    simpa using hstep

/-- Witness for C2 (amended): triggering the cactus at (14,6) marks it used,
keeps `remaining` empty (the trigger is destroyed), and spawns exactly the
four projectiles of its legal directions, all owned by shooter "A". -/
theorem claim2_cactus_trigger_witness :
    (stepProj wStC2 ⟨1, 13, 6, 1, 0, "A"⟩).remaining = []
    ∧ getCactusAt (stepProj wStC2 ⟨1, 13, 6, 1, 0, "A"⟩).room.cacti 14 6
        = some ⟨14, 6, true⟩
    ∧ (stepProj wStC2 ⟨1, 13, 6, 1, 0, "A"⟩).spawned.length = 4
    ∧ ∀ s ∈ (stepProj wStC2 ⟨1, 13, 6, 1, 0, "A"⟩).spawned, s.shooterId = "A" := by
  have h := (claim2_cactus_trigger wStC2 ⟨1, 13, 6, 1, 0, "A"⟩ ⟨14, 6, false⟩
    (by decide) (by decide) (by decide) (by decide) (by decide)).1 rfl
  rw [h.1]
  refine ⟨by decide, by decide, by decide, by decide⟩

/-- Counterexample to C2 as frozen: both projectiles of `cRoomC2` have the
unused cactus at (14,6) as tentative destination, yet the same-destination
cancellation destroys them first — after the tick every cactus is still
unused and nothing spawned, though the claim demands that the cactus be
marked used and a burst be spawned. -/
theorem claim2_cactus_trigger_counterexample :
    (∀ p ∈ cRoomC2.projectiles,
        getCactusAt cRoomC2.cacti (p.x + p.dx) (p.y + p.dy) = some ⟨14, 6, false⟩)
    ∧ cRoomC2.projectiles ≠ []
    ∧ (tickRoom 0 cRoomC2 100).1.cacti.all (fun c => ¬ c.used)
    ∧ (tickRoom 0 cRoomC2 100).1.projectiles = [] :=
  ⟨by decide, by decide, by decide, by decide⟩

/-! ## Collision-marking lemmas (C1) -/

theorem alookup_insertGroup {κ : Type} [DecidableEq κ]
    (m : List (κ × List Proj)) (k0 k : κ) (p : Proj) :
    alookup (insertGroup m k0 p) k
      = if k = k0 then some ((alookup m k0).getD [] ++ [p]) else alookup m k := by
  induction m with
  | nil =>
      by_cases hk : k = k0
      · subst hk
        simp [insertGroup, alookup]
      · have hk2 : ¬ k0 = k := fun h => hk h.symm
        simp [insertGroup, alookup, hk, hk2]
  | cons e rest ih =>
      by_cases he : e.1 = k0
      · by_cases hk : k = k0
        · subst hk
          simp [insertGroup, alookup, he]
        · have hk2 : ¬ k0 = k := fun h => hk h.symm
          have hek : ¬ e.1 = k := by rw [he]; exact hk2
          simp [insertGroup, alookup, he, hk, hk2, hek]
      · by_cases hek : e.1 = k
        · have hk : ¬ k = k0 := by rw [← hek]; exact he
          simp [insertGroup, alookup, he, hek, hk]
        · simp [insertGroup, alookup, he, hek, ih]

theorem akeys_insertGroup {κ : Type} [DecidableEq κ]
    (m : List (κ × List Proj)) (k : κ) (p : Proj) :
    (insertGroup m k p).map Prod.fst
      = if k ∈ m.map Prod.fst then m.map Prod.fst else m.map Prod.fst ++ [k] := by
  induction m with
  | nil => simp [insertGroup]
  | cons e rest ih =>
      by_cases he : e.1 = k
      · simp [insertGroup, he]
      · have hke : ¬ k = e.1 := fun h => he h.symm
        by_cases hm : k ∈ rest.map Prod.fst
        · simp [insertGroup, he, ih, hm, hke]
        · simp [insertGroup, he, ih, hm, hke]

theorem akeys_groupProjs_nodup {κ : Type} [DecidableEq κ]
    (key : Proj → Option κ) (ps : List Proj) :
    ((groupProjs key ps).map Prod.fst).Nodup := by
  induction ps using List.reverseRecOn with
  | nil => simp [groupProjs]
  | append_singleton ps p ih =>
      unfold groupProjs at ih ⊢
      rw [List.foldl_append, List.foldl_cons, List.foldl_nil]
      cases hkey : key p with
      | none =>
          simp only [groupStep, hkey]
          exact ih
      | some k =>
          simp only [groupStep, hkey]
          rw [akeys_insertGroup]
          by_cases hm : k ∈ (ps.foldl (groupStep key) []).map Prod.fst
          · rw [if_pos hm]
            exact ih
          · rw [if_neg hm]
            rw [List.nodup_append]
            exact ⟨ih, List.nodup_singleton _, by simpa using hm⟩

theorem alookup_groupProjs {κ : Type} [DecidableEq κ]
    (key : Proj → Option κ) (ps : List Proj) (k : κ) :
    alookup (groupProjs key ps) k
      = if ps.filter (fun p => key p = some k) = [] then none
        else some (ps.filter (fun p => key p = some k)) := by
  induction ps using List.reverseRecOn with
  | nil => simp [groupProjs, alookup]
  | append_singleton ps p ih =>
      unfold groupProjs at ih ⊢
      rw [List.foldl_append, List.foldl_cons, List.foldl_nil]
      rw [List.filter_append]
      cases hkey : key p with
      | none =>
          simp only [groupStep, hkey]
          have hf : [p].filter (fun q => key q = some k) = [] := by
            simp [List.filter, hkey]
          rw [hf, List.append_nil]
          exact ih
      | some k0 =>
          simp only [groupStep, hkey]
          rw [alookup_insertGroup]
          by_cases hk : k = k0
          · subst hk
            have hf : [p].filter (fun q => key q = some k) = [p] := by
              simp [List.filter, hkey]
            rw [if_pos rfl, hf, ih]
            by_cases he : ps.filter (fun q => key q = some k) = []
            · rw [if_pos he, he]
              simp
            · rw [if_neg he, if_neg (by simp)]
              simp
          · have hk2 : ¬ k0 = k := fun h => hk h.symm
            have hf : [p].filter (fun q => key q = some k) = [] := by
              simp [List.filter, hkey, hk2]
            rw [if_neg hk, hf, List.append_nil]
            exact ih

theorem alookup_eq_some_of_mem {κ : Type} [DecidableEq κ] {m : List (κ × List Proj)}
    (hnd : (m.map Prod.fst).Nodup) {e : κ × List Proj} (he : e ∈ m) :
    alookup m e.1 = some e.2 := by
  induction m with
  | nil => cases he
  | cons a rest ih =>
      rw [List.map_cons, List.nodup_cons] at hnd
      rcases List.mem_cons.1 he with rfl | hmem
      · rw [alookup, if_pos rfl]
      · rw [alookup]
        by_cases ha : a.1 = e.1
        · exact absurd (ha ▸ List.mem_map_of_mem Prod.fst hmem) hnd.1
        · rw [if_neg ha]
          exact ih hnd.2 hmem

theorem mem_of_alookup_eq_some {κ : Type} [DecidableEq κ] {m : List (κ × List Proj)}
    {k : κ} {l : List Proj} (h : alookup m k = some l) : (k, l) ∈ m := by
  induction m with
  | nil => cases h
  | cons a rest ih =>
      rw [alookup] at h
      by_cases ha : a.1 = k
      · rw [if_pos ha] at h
        cases a
        cases h
        subst ha
        exact List.mem_cons_self _ _
      · rw [if_neg ha] at h
        exact List.mem_cons_of_mem _ (ih h)

theorem mem_foldl_append {α β : Type} (f : α → List β) (l : List α) (acc : List β) (x : β) :
    x ∈ l.foldl (fun a e => a ++ f e) acc ↔ x ∈ acc ∨ ∃ e ∈ l, x ∈ f e := by
  induction l generalizing acc with
  | nil => simp
  | cons e rest ih =>
      rw [List.foldl_cons, ih]
      simp [List.mem_append, or_assoc]

theorem mem_phase1Ids (ps : List Proj) (x : Nat) :
    x ∈ phase1Ids ps
      ↔ ∃ k, segGroup ps k ≠ [] ∧ x ∈ segMark k (segGroup ps k) := by
  unfold phase1Ids
  refine Iff.trans (mem_foldl_append (fun e : SegKey × List Proj => segMark e.1 e.2)
    (groupProjs segKeyOf ps) [] x) ?_
  simp only [List.not_mem_nil, false_or]
  constructor
  · rintro ⟨e, he, hx⟩
    have hl := alookup_eq_some_of_mem (akeys_groupProjs_nodup segKeyOf ps) he
    rw [alookup_groupProjs] at hl
    by_cases hemp : ps.filter (fun p => segKeyOf p = some e.1) = []
    · rw [if_pos hemp] at hl
      cases hl
    · rw [if_neg hemp] at hl
      refine ⟨e.1, ?_, ?_⟩
      · simpa [segGroup] using hemp
      · have he2 : e.2 = segGroup ps e.1 := by
          unfold segGroup
          exact (Option.some_inj.1 hl).symm
        rw [← he2]
        exact hx
  · rintro ⟨k, hne, hx⟩
    have hl : alookup (groupProjs segKeyOf ps) k = some (segGroup ps k) := by
      rw [alookup_groupProjs, if_neg (by simpa [segGroup] using hne)]
      rfl
    exact ⟨(k, segGroup ps k), mem_of_alookup_eq_some hl, hx⟩

theorem mem_phase2Ids (ps : List Proj) (x : Nat) :
    x ∈ phase2Ids ps
      ↔ ∃ t, tileGroup ps t ≠ [] ∧ x ∈ tileMark (tileGroup ps t) := by
  unfold phase2Ids
  refine Iff.trans (mem_foldl_append (fun e : (Int × Int) × List Proj => tileMark e.2)
    (groupProjs (fun p => some (tileKeyOf p)) ps) [] x) ?_
  simp only [List.not_mem_nil, false_or]
  have hgr : ∀ t, ps.filter (fun p => (some (tileKeyOf p) : Option (Int × Int)) = some t)
      = tileGroup ps t := by
    intro t
    unfold tileGroup
    apply List.filter_congr
    intro q _
    simp
  constructor
  · rintro ⟨e, he, hx⟩
    have hl := alookup_eq_some_of_mem
      (akeys_groupProjs_nodup (fun p => some (tileKeyOf p)) ps) he
    rw [alookup_groupProjs, hgr] at hl
    by_cases hemp : tileGroup ps e.1 = []
    · rw [if_pos hemp] at hl
      cases hl
    · rw [if_neg hemp] at hl
      refine ⟨e.1, hemp, ?_⟩
      rw [Option.some_inj.1 hl]
      exact hx
  · rintro ⟨t, hne, hx⟩
    have hl : alookup (groupProjs (fun p => some (tileKeyOf p)) ps) t
        = some (tileGroup ps t) := by
      rw [alookup_groupProjs, hgr, if_neg hne]
    exact ⟨(t, tileGroup ps t), mem_of_alookup_eq_some hl, hx⟩

theorem two_le_length_of_mem {α : Type} {l : List α} {a b : α}
    (ha : a ∈ l) (hb : b ∈ l) (hab : a ≠ b) : 2 ≤ l.length := by
  cases l with
  | nil => cases ha
  | cons x rest =>
      cases rest with
      | nil =>
          rcases List.mem_singleton.1 ha with rfl
          rcases List.mem_singleton.1 hb with rfl
          exact absurd rfl hab
      | cons y t =>
          simp only [List.length_cons]
          omega

theorem posDir_ne_negDir {k : SegKey} {q : Proj}
    (hp : isPosDir k q = true) (hn : isNegDir k q = true) : False := by
  cases k <;> simp [isPosDir, isNegDir] at hp hn <;> omega

theorem proj_id_inj {ps : List Proj} (hids : (ps.map Proj.id).Nodup)
    {p q : Proj} (hp : p ∈ ps) (hq : q ∈ ps) (h : p.id = q.id) : p = q :=
  List.inj_on_of_nodup_map hids hp hq h

theorem mem_segGroup_key {ps : List Proj} {k : SegKey} {q : Proj}
    (h : q ∈ segGroup ps k) : q ∈ ps ∧ segKeyOf q = some k := by
  unfold segGroup at h
  rw [List.mem_filter] at h
  exact ⟨h.1, by simpa using h.2⟩

theorem phase1_char (ps : List Proj) (hids : (ps.map Proj.id).Nodup)
    {p : Proj} (hp : p ∈ ps) {k : SegKey} (hk : segKeyOf p = some k) :
    p.id ∈ phase1Ids ps
      ↔ p ∈ ((segGroup ps k).filter (isPosDir k)).take (nPairsSeg ps k)
        ∨ p ∈ ((segGroup ps k).filter (isNegDir k)).take (nPairsSeg ps k) := by
  constructor
  · intro hmem
    rcases (mem_phase1Ids ps p.id).1 hmem with ⟨k1, hne, hx⟩
    unfold segMark at hx
    by_cases hlen : (segGroup ps k1).length < 2
    · rw [if_pos hlen] at hx
      cases hx
    · rw [if_neg hlen] at hx
      unfold pairIds at hx
      simp only [List.mem_append, List.mem_map] at hx
      rcases hx with ⟨q, hqt, hqid⟩ | ⟨q, hqt, hqid⟩
      · have hqg : q ∈ segGroup ps k1 :=
          List.mem_of_mem_filter (List.mem_of_mem_take hqt)
        have hqe : p = q := proj_id_inj hids hp ((mem_segGroup_key hqg).1) hqid.symm
        subst hqe
        have hk1 : k1 = k := by
          have := (mem_segGroup_key hqg).2
          rw [hk] at this
          exact (Option.some_inj.1 this).symm
        subst hk1
        exact Or.inl (by
          unfold nPairsSeg
          exact hqt)
      · have hqg : q ∈ segGroup ps k1 :=
          List.mem_of_mem_filter (List.mem_of_mem_take hqt)
        have hqe : p = q := proj_id_inj hids hp ((mem_segGroup_key hqg).1) hqid.symm
        subst hqe
        have hk1 : k1 = k := by
          have := (mem_segGroup_key hqg).2
          rw [hk] at this
          exact (Option.some_inj.1 this).symm
        subst hk1
        exact Or.inr (by
          unfold nPairsSeg
          exact hqt)
  · intro hmem
    apply (mem_phase1Ids ps p.id).2
    have hpos0 : 0 < nPairsSeg ps k := by
      rcases Nat.eq_zero_or_pos (nPairsSeg ps k) with h0 | h
      · rcases hmem with hmem | hmem <;> (rw [h0, List.take_zero] at hmem; cases hmem)
      · exact h
    have hposne : 0 < ((segGroup ps k).filter (isPosDir k)).length := by
      have := Nat.min_le_left ((segGroup ps k).filter (isPosDir k)).length
        ((segGroup ps k).filter (isNegDir k)).length
      unfold nPairsSeg at hpos0
      omega
    have hnegne : 0 < ((segGroup ps k).filter (isNegDir k)).length := by
      have := Nat.min_le_right ((segGroup ps k).filter (isPosDir k)).length
        ((segGroup ps k).filter (isNegDir k)).length
      unfold nPairsSeg at hpos0
      omega
    obtain ⟨a, ha⟩ := List.exists_mem_of_length_pos hposne
    obtain ⟨b, hb⟩ := List.exists_mem_of_length_pos hnegne
    have hag : a ∈ segGroup ps k := List.mem_of_mem_filter ha
    have hbg : b ∈ segGroup ps k := List.mem_of_mem_filter hb
    have hab : a ≠ b := by
      intro h
      subst h
      exact posDir_ne_negDir (by simpa using (List.mem_filter.1 ha).2)
        (by simpa using (List.mem_filter.1 hb).2)
    refine ⟨k, ?_, ?_⟩
    · exact List.ne_nil_of_mem hag
    · unfold segMark
      rw [if_neg (by
        have := two_le_length_of_mem hag hbg hab
        omega)]
      unfold pairIds
      simp only [List.mem_append, List.mem_map]
      rcases hmem with hmem | hmem
      · exact Or.inl ⟨p, by unfold nPairsSeg at hmem; exact hmem, rfl⟩
      · exact Or.inr ⟨p, by unfold nPairsSeg at hmem; exact hmem, rfl⟩

theorem mem_tileGroup_key {ps : List Proj} {t : Int × Int} {q : Proj}
    (h : q ∈ tileGroup ps t) : q ∈ ps ∧ tileKeyOf q = t := by
  unfold tileGroup at h
  rw [List.mem_filter] at h
  exact ⟨h.1, by simpa using h.2⟩

theorem pos_of_mem_take {α : Type} {x : α} {l : List α} {n : Nat}
    (h : x ∈ l.take n) : 0 < n := by
  rcases Nat.eq_zero_or_pos n with h0 | hpos
  · rw [h0, List.take_zero] at h
    cases h
  · exact hpos

theorem two_le_of_min_pos {l : List Proj} {f g : Proj → Bool}
    (hdis : ∀ r, f r = true → g r = true → False)
    (hmin : 0 < min (l.filter f).length (l.filter g).length) :
    2 ≤ l.length := by
  have hf : 0 < (l.filter f).length := lt_of_lt_of_le hmin (Nat.min_le_left _ _)
  have hg : 0 < (l.filter g).length := lt_of_lt_of_le hmin (Nat.min_le_right _ _)
  obtain ⟨a, ha⟩ := List.exists_mem_of_length_pos hf
  obtain ⟨b, hb⟩ := List.exists_mem_of_length_pos hg
  have hab : a ≠ b := by
    intro h
    subst h
    exact hdis a (by simpa using (List.mem_filter.1 ha).2)
      (by simpa using (List.mem_filter.1 hb).2)
  exact two_le_length_of_mem (List.mem_of_mem_filter ha) (List.mem_of_mem_filter hb) hab

theorem tag_disjoint (u v : Arrow) (huv : u ≠ v) :
    ∀ r : Proj, decide (dirTag r = some u) = true →
      decide (dirTag r = some v) = true → False := by
  intro r h1 h2
  rw [decide_eq_true_eq] at h1 h2
  rw [h1] at h2
  exact huv (Option.some_inj.1 h2)

theorem phase2_char (ps : List Proj) (hids : (ps.map Proj.id).Nodup)
    {p : Proj} (hp : p ∈ ps) :
    p.id ∈ phase2Ids ps
      ↔ p ∈ (leftsOf (tileGroup ps (tileKeyOf p))).take (nLR (tileGroup ps (tileKeyOf p)))
      ∨ p ∈ (rightsOf (tileGroup ps (tileKeyOf p))).take (nLR (tileGroup ps (tileKeyOf p)))
      ∨ p ∈ (upsOf (tileGroup ps (tileKeyOf p))).take (nUD (tileGroup ps (tileKeyOf p)))
      ∨ p ∈ (downsOf (tileGroup ps (tileKeyOf p))).take (nUD (tileGroup ps (tileKeyOf p))) := by
  unfold leftsOf rightsOf upsOf downsOf nLR nUD
  constructor
  · intro hmem
    rcases (mem_phase2Ids ps p.id).1 hmem with ⟨t, hne, hx⟩
    unfold tileMark at hx
    by_cases hlen : (tileGroup ps t).length < 2
    · rw [if_pos hlen] at hx
      cases hx
    · rw [if_neg hlen] at hx
      unfold pairIds at hx
      simp only [List.mem_append, List.mem_map] at hx
      have hsub : ∀ {q : Proj} {f : Proj → Bool} {n : Nat},
          q ∈ ((tileGroup ps t).filter f).take n → q ∈ tileGroup ps t :=
        fun hq => List.mem_of_mem_filter (List.mem_of_mem_take hq)
      rcases hx with (⟨q, hqt, hqid⟩ | ⟨q, hqt, hqid⟩) | (⟨q, hqt, hqid⟩ | ⟨q, hqt, hqid⟩) <;>
      · have hqg := hsub hqt
        have hqe : p = q := proj_id_inj hids hp ((mem_tileGroup_key hqg).1) hqid.symm
        subst hqe
        have ht : tileKeyOf p = t := (mem_tileGroup_key hqg).2
        subst ht
        first
          | exact Or.inl hqt
          | exact Or.inr (Or.inl hqt)
          | exact Or.inr (Or.inr (Or.inl hqt))
          | exact Or.inr (Or.inr (Or.inr hqt))
  · intro hmem
    apply (mem_phase2Ids ps p.id).2
    refine ⟨tileKeyOf p, ?_, ?_⟩
    · rcases hmem with hm | hm | hm | hm <;>
        exact List.ne_nil_of_mem (List.mem_of_mem_filter (List.mem_of_mem_take hm))
    · unfold tileMark
      rw [if_neg (by
        rcases hmem with hm | hm | hm | hm
        · have := two_le_of_min_pos (tag_disjoint Arrow.left Arrow.right (by decide))
            (pos_of_mem_take hm)
          omega
        · have := two_le_of_min_pos (tag_disjoint Arrow.left Arrow.right (by decide))
            (pos_of_mem_take hm)
          omega
        · have := two_le_of_min_pos (tag_disjoint Arrow.up Arrow.down (by decide))
            (pos_of_mem_take hm)
          omega
        · have := two_le_of_min_pos (tag_disjoint Arrow.up Arrow.down (by decide))
            (pos_of_mem_take hm)
          omega)]
      unfold pairIds
      simp only [List.mem_append, List.mem_map]
      rcases hmem with hm | hm | hm | hm
      · exact Or.inl (Or.inl ⟨p, hm, rfl⟩)
      · exact Or.inl (Or.inr ⟨p, hm, rfl⟩)
      · exact Or.inr (Or.inl ⟨p, hm, rfl⟩)
      · exact Or.inr (Or.inr ⟨p, hm, rfl⟩)

theorem length_filter_mem {l t : List Proj} (hl : l.Nodup) (ht : t.Nodup)
    (hsub : t ⊆ l) :
    (l.filter (fun x => decide (x ∈ t))).length = t.length := by
  have hnd : (l.filter (fun x => decide (x ∈ t))).Nodup := hl.filter _
  have hperm : List.Perm (l.filter (fun x => decide (x ∈ t))) t := by
    rw [List.perm_ext_iff_of_nodup hnd ht]
    intro a
    simp only [List.mem_filter, decide_eq_true_eq]
    constructor
    · exact fun h => h.2
    · exact fun h => ⟨hsub h, h⟩
  exact hperm.length_eq

theorem take_nodup {l : List Proj} (h : l.Nodup) (n : Nat) : (l.take n).Nodup :=
  List.Nodup.sublist (List.take_sublist _ _) h

theorem phase1_count (ps : List Proj) (hids : (ps.map Proj.id).Nodup) (k : SegKey) :
    ((segGroup ps k).filter (fun p => decide (p.id ∈ phase1Ids ps))).length
      = 2 * nPairsSeg ps k := by
  have hgnodup : (segGroup ps k).Nodup := (List.Nodup.of_map Proj.id hids).filter _
  have hA : (((segGroup ps k).filter (isPosDir k)).take (nPairsSeg ps k)).Nodup :=
    take_nodup (hgnodup.filter _) _
  have hB : (((segGroup ps k).filter (isNegDir k)).take (nPairsSeg ps k)).Nodup :=
    take_nodup (hgnodup.filter _) _
  have hdis : List.Disjoint
      (((segGroup ps k).filter (isPosDir k)).take (nPairsSeg ps k))
      (((segGroup ps k).filter (isNegDir k)).take (nPairsSeg ps k)) := by
    intro a haA haB
    exact posDir_ne_negDir
      (by simpa using (List.mem_filter.1 (List.mem_of_mem_take haA)).2)
      (by simpa using (List.mem_filter.1 (List.mem_of_mem_take haB)).2)
  have ht : (((segGroup ps k).filter (isPosDir k)).take (nPairsSeg ps k)
      ++ ((segGroup ps k).filter (isNegDir k)).take (nPairsSeg ps k)).Nodup :=
    List.nodup_append.2 ⟨hA, hB, hdis⟩
  have hsub : (((segGroup ps k).filter (isPosDir k)).take (nPairsSeg ps k)
      ++ ((segGroup ps k).filter (isNegDir k)).take (nPairsSeg ps k)) ⊆ segGroup ps k := by
    intro a ha
    rcases List.mem_append.1 ha with h | h <;>
      exact List.mem_of_mem_filter (List.mem_of_mem_take h)
  have hcongr : ∀ p ∈ segGroup ps k,
      (decide (p.id ∈ phase1Ids ps) : Bool)
        = decide (p ∈ (((segGroup ps k).filter (isPosDir k)).take (nPairsSeg ps k)
            ++ ((segGroup ps k).filter (isNegDir k)).take (nPairsSeg ps k))) := by
    intro p hpg
    rw [decide_eq_decide]
    obtain ⟨hpps, hpk⟩ := mem_segGroup_key hpg
    rw [phase1_char ps hids hpps hpk, List.mem_append]
  rw [List.filter_congr hcongr,
    length_filter_mem hgnodup ht hsub, List.length_append,
    List.length_take, List.length_take]
  have h1 := Nat.min_le_left ((segGroup ps k).filter (isPosDir k)).length
    ((segGroup ps k).filter (isNegDir k)).length
  have h2 := Nat.min_le_right ((segGroup ps k).filter (isPosDir k)).length
    ((segGroup ps k).filter (isNegDir k)).length
  unfold nPairsSeg
  omega

theorem phase2_count (ps : List Proj) (hids : (ps.map Proj.id).Nodup) (t : Int × Int) :
    ((tileGroup ps t).filter (fun p => decide (p.id ∈ phase2Ids ps))).length
      = 2 * nLR (tileGroup ps t) + 2 * nUD (tileGroup ps t) := by
  have hgnodup : (tileGroup ps t).Nodup := (List.Nodup.of_map Proj.id hids).filter _
  set g := tileGroup ps t with hg
  set A := (leftsOf g).take (nLR g) with hA0
  set B := (rightsOf g).take (nLR g) with hB0
  set C := (upsOf g).take (nUD g) with hC0
  set D := (downsOf g).take (nUD g) with hD0
  have htag : ∀ {u : Arrow} {q : Proj} {n0 : Nat},
      q ∈ ((g.filter (fun r => dirTag r = some u)).take n0) →
        decide (dirTag q = some u) = true :=
    fun hq => (List.mem_filter.1 (List.mem_of_mem_take hq)).2
  have hANodup : A.Nodup := take_nodup (hgnodup.filter _) _
  have hBNodup : B.Nodup := take_nodup (hgnodup.filter _) _
  have hCNodup : C.Nodup := take_nodup (hgnodup.filter _) _
  have hDNodup : D.Nodup := take_nodup (hgnodup.filter _) _
  have hdisAB : List.Disjoint A B := fun a haA haB =>
    tag_disjoint Arrow.left Arrow.right (by decide) a (htag haA) (htag haB)
  have hdisCD : List.Disjoint C D := fun a haC haD =>
    tag_disjoint Arrow.up Arrow.down (by decide) a (htag haC) (htag haD)
  have hdisABCD : List.Disjoint (A ++ B) (C ++ D) := by
    intro a haAB haCD
    rcases List.mem_append.1 haAB with h1 | h1 <;>
      rcases List.mem_append.1 haCD with h2 | h2
    · exact tag_disjoint Arrow.left Arrow.up (by decide) a (htag h1) (htag h2)
    · exact tag_disjoint Arrow.left Arrow.down (by decide) a (htag h1) (htag h2)
    · exact tag_disjoint Arrow.right Arrow.up (by decide) a (htag h1) (htag h2)
    · exact tag_disjoint Arrow.right Arrow.down (by decide) a (htag h1) (htag h2)
  have htnodup : ((A ++ B) ++ (C ++ D)).Nodup :=
    List.nodup_append.2 ⟨List.nodup_append.2 ⟨hANodup, hBNodup, hdisAB⟩,
      List.nodup_append.2 ⟨hCNodup, hDNodup, hdisCD⟩, hdisABCD⟩
  have hsub : ((A ++ B) ++ (C ++ D)) ⊆ g := by
    intro a ha
    rcases List.mem_append.1 ha with h | h <;> rcases List.mem_append.1 h with h2 | h2 <;>
      exact List.mem_of_mem_filter (List.mem_of_mem_take h2)
  have hcongr : ∀ p ∈ g,
      (decide (p.id ∈ phase2Ids ps) : Bool) = decide (p ∈ ((A ++ B) ++ (C ++ D))) := by
    intro p hpg
    rw [decide_eq_decide]
    obtain ⟨hpps, hpt⟩ := mem_tileGroup_key (hg ▸ hpg)
    rw [phase2_char ps hids hpps, hpt]
    simp only [List.mem_append, hA0, hB0, hC0, hD0, hg]
    tauto
  rw [List.filter_congr hcongr,
    length_filter_mem hgnodup htnodup hsub, List.length_append, List.length_append,
    hA0, hB0, hC0, hD0, List.length_append, List.length_take, List.length_take,
    List.length_take, List.length_take]
  have h1 := Nat.min_le_left (leftsOf g).length (rightsOf g).length
  have h2 := Nat.min_le_right (leftsOf g).length (rightsOf g).length
  have h3 := Nat.min_le_left (upsOf g).length (downsOf g).length
  have h4 := Nat.min_le_right (upsOf g).length (downsOf g).length
  unfold nLR nUD at *
  omega

theorem phase2Input_ids_nodup {ps : List Proj} (hids : (ps.map Proj.id).Nodup) :
    ((phase2Input ps).map Proj.id).Nodup :=
  List.Nodup.sublist (List.Sublist.map Proj.id (List.filter_sublist _)) hids

/-- C1: with distinct projectile ids, phase 1 marks a projectile destroyed
precisely when it is among the first `min(|pos|,|neg|)` same-indexed elements
of its segment group's positive- or negative-direction subset (taken in
original relative order), destroying exactly `2·min(|pos|,|neg|)` projectiles
per segment group; among the survivors, phase 2 marks a projectile precisely
when it is among the first `min` same-indexed elements of its destination
cell's left/right or up/down subsets, destroying exactly
`2·min(|L|,|R|) + 2·min(|U|,|D|)` per cell; the full mark set is the union of
the two phases.  Both phases are functions of the input list, so the result
is deterministic given the input order. -/
theorem claim1_pair_cancellation (ps : List Proj) (hids : (ps.map Proj.id).Nodup) :
    (∀ p ∈ ps, ∀ k, segKeyOf p = some k →
        (p.id ∈ phase1Ids ps ↔
          p ∈ ((segGroup ps k).filter (isPosDir k)).take (nPairsSeg ps k)
          ∨ p ∈ ((segGroup ps k).filter (isNegDir k)).take (nPairsSeg ps k)))
    ∧ (∀ k, ((segGroup ps k).filter (fun p => p.id ∈ phase1Ids ps)).length
        = 2 * nPairsSeg ps k)
    ∧ (∀ p ∈ phase2Input ps,
        (p.id ∈ phase2Ids (phase2Input ps) ↔
          p ∈ (leftsOf (tileGroup (phase2Input ps) (tileKeyOf p))).take
              (nLR (tileGroup (phase2Input ps) (tileKeyOf p)))
          ∨ p ∈ (rightsOf (tileGroup (phase2Input ps) (tileKeyOf p))).take
              (nLR (tileGroup (phase2Input ps) (tileKeyOf p)))
          ∨ p ∈ (upsOf (tileGroup (phase2Input ps) (tileKeyOf p))).take
              (nUD (tileGroup (phase2Input ps) (tileKeyOf p)))
          ∨ p ∈ (downsOf (tileGroup (phase2Input ps) (tileKeyOf p))).take
              (nUD (tileGroup (phase2Input ps) (tileKeyOf p)))))
    ∧ (∀ t, ((tileGroup (phase2Input ps) t).filter
          (fun p => p.id ∈ phase2Ids (phase2Input ps))).length
        = 2 * nLR (tileGroup (phase2Input ps) t)
          + 2 * nUD (tileGroup (phase2Input ps) t))
    ∧ (∀ x : Nat, x ∈ toRemoveIds ps
        ↔ x ∈ phase1Ids ps ∨ x ∈ phase2Ids (phase2Input ps)) := by
  refine ⟨?_, ?_, ?_, ?_, ?_⟩
  · intro p hp k hk
    exact phase1_char ps hids hp hk
  · intro k
    exact phase1_count ps hids k
  · intro p hp
    exact phase2_char (phase2Input ps) (phase2Input_ids_nodup hids) hp
  · intro t
    exact phase2_count (phase2Input ps) (phase2Input_ids_nodup hids) t
  · intro x
    unfold toRemoveIds
    exact List.mem_append

/-- Witness for C1: two projectiles crossing the unit segment between (3,5)
and (4,5) in opposite directions; the characterization places the
right-mover among the cancelled pairs of its segment group. -/
theorem claim1_pair_cancellation_witness :
    (([⟨1, 3, 5, 1, 0, "A"⟩, ⟨2, 4, 5, -1, 0, "B"⟩] : List Proj).map Proj.id).Nodup
    ∧ (Proj.id ⟨1, 3, 5, 1, 0, "A"⟩
          ∈ phase1Ids [⟨1, 3, 5, 1, 0, "A"⟩, ⟨2, 4, 5, -1, 0, "B"⟩]
        ↔ (⟨1, 3, 5, 1, 0, "A"⟩ : Proj)
            ∈ ((segGroup [⟨1, 3, 5, 1, 0, "A"⟩, ⟨2, 4, 5, -1, 0, "B"⟩]
                (SegKey.h 3 5)).filter (isPosDir (SegKey.h 3 5))).take
              (nPairsSeg [⟨1, 3, 5, 1, 0, "A"⟩, ⟨2, 4, 5, -1, 0, "B"⟩] (SegKey.h 3 5))
          ∨ (⟨1, 3, 5, 1, 0, "A"⟩ : Proj)
            ∈ ((segGroup [⟨1, 3, 5, 1, 0, "A"⟩, ⟨2, 4, 5, -1, 0, "B"⟩]
                (SegKey.h 3 5)).filter (isNegDir (SegKey.h 3 5))).take
              (nPairsSeg [⟨1, 3, 5, 1, 0, "A"⟩, ⟨2, 4, 5, -1, 0, "B"⟩] (SegKey.h 3 5))) :=
  ⟨by decide,
   (claim1_pair_cancellation [⟨1, 3, 5, 1, 0, "A"⟩, ⟨2, 4, 5, -1, 0, "B"⟩]
      (by decide)).1 ⟨1, 3, 5, 1, 0, "A"⟩ (by decide) (SegKey.h 3 5) (by decide)⟩
